import Mathlib

/-!
# Verification of the inkslides build pipeline

A shallow embedding of the `inkslides` package (`src/inkslides/*.py`, final
multi-file variant) and proofs about its slide-plan compiler, slide
materializer, render cache, worker pool and merge stage.

Modelling conventions:

* The SVG document is a tree of inkscape layer elements (`SLayer`).  Each
  layer carries its `inkscape:label`, its `style` attribute, its direct
  `svg:text` children (as lists of `tspan` texts, `Option String` because
  lxml reports an empty element's text as `None`), a flag recording whether
  the layer's own (non-sublayer) content contains an `svg:use` element, and
  its sub-layers.  The style attribute is represented in the parsed form
  produced by `get_styles` (a key/value dict); `set_styles` re-serializes it
  sorted, which `render_styles` below reproduces for the one place the code
  inspects the raw attribute string (the `contains(@style,"display:none")`
  xpath of `create_slides_svg`).
* Python `dict` insertion (`d[k] = v`) is `dinsert`: replace in place or
  append.
* Serialized bytes of a written SVG file are represented by the document
  tree itself: `tmp_doc.write(path)` is deterministic, so equal trees give
  equal bytes and distinct trees distinct bytes; the sha256 comparison of
  `create_slides_svg` is correspondingly modelled as comparison of the
  stored content (sha256 is treated as collision-free).
* The filesystem is a map from path strings to file contents.
-/

set_option autoImplicit false

namespace Inkslides

/-! ## Small string and association-list utilities

Python's `str.strip`, `str.startswith`, `l.text[0]`, `l.text[1:]`,
`s.split('.')` and `sorted` are modelled character-exactly on `String.data`
so that every definition evaluates inside the kernel. -/

/-- Python dict assignment `d[k] = v`: replace the value at an existing key
in place, otherwise append the pair at the end. -/
def dinsert {β : Type} (k : String) (v : β) : List (String × β) → List (String × β)
  | [] => [(k, v)]
  | (k', v') :: rest => if k' = k then (k, v) :: rest else (k', v') :: dinsert k v rest

/-- Python dict lookup `d[k]` (keys are unique in a dict, so the first match
is the match). -/
def dlookup {β : Type} (k : String) : List (String × β) → Option β
  | [] => none
  | (k', v') :: rest => if k' = k then some v' else dlookup k rest

/-- Python `list.remove(x)`: drop the first occurrence of `x`; `none` when
`x` is absent (where CPython raises `ValueError`). -/
def removeFirst (x : String) : List String → Option (List String)
  | [] => none
  | y :: ys => if y = x then some ys else (removeFirst x ys).map (y :: ·)

/-- ASCII whitespace for `str.strip`. -/
def wsB (c : Char) : Bool := c = ' ' || c = '\t' || c = '\n' || c = '\r'

/-- Python `str.strip()`. -/
def stripStr (s : String) : String :=
  String.mk (((s.data.dropWhile wsB).reverse.dropWhile wsB).reverse)

/-- `pat` is a leading run of `s` (character-level `str.startswith`). -/
def prefB : List Char → List Char → Bool
  | [], _ => true
  | _ :: _, [] => false
  | a :: as, b :: bs => a = b && prefB as bs

/-- Python `str.startswith(pat)`. -/
def startsWithB (s pat : String) : Bool := prefB pat.data s.data

/-- `pat` occurs contiguously inside `s` (the xpath `contains(a, b)`
substring test). -/
def infB (pat : List Char) : List Char → Bool
  | [] => prefB pat []
  | c :: rest => prefB pat (c :: rest) || infB pat rest

def containsSub (s pat : String) : Bool := infB pat.data s.data

/-- Code-point lexicographic `≤` on strings, as Python compares `str`. -/
def lexLe : List Char → List Char → Bool
  | [], _ => true
  | _ :: _, [] => false
  | a :: as, b :: bs => if a = b then lexLe as bs else decide (a < b)

def insSorted (x : String) : List String → List String
  | [] => [x]
  | y :: ys => if lexLe x.data y.data then x :: y :: ys else y :: insSorted x ys

/-- Python `sorted` on a list of strings (the elements `set_styles` sorts are
pairwise distinct `"k:v"` items, so stability is irrelevant). -/
def sortStrs : List String → List String
  | [] => []
  | x :: xs => insSorted x (sortStrs xs)

/-- Python `'.'.join(...)` split helper: `s.split('.')` at character level. -/
def splitCh (c : Char) : List Char → List (List Char)
  | [] => [[]]
  | a :: as =>
    let r := splitCh c as
    if a = c then [] :: r
    else
      match r with
      | [] => [[a]]
      | g :: gs => (a :: g) :: gs

/-! ## Document model -/

/-- An `svg:text` element: the texts of its `svg:tspan` children in order
(`none` models lxml's `text is None`). -/
structure TextEl where
  tspans : List (Option String)
  deriving DecidableEq

/-- An inkscape layer (`svg:g` with `inkscape:groupmode="layer"`).
`style` is the parsed form of the `style` attribute, `texts` the direct
`svg:text` children, `ownUse` whether the layer's own content (outside
sub-layers) contains an `svg:use` element, `subs` the nested layers. -/
inductive SLayer where
  | mk (label : String) (style : List (String × String)) (texts : List TextEl)
       (ownUse : Bool) (subs : List SLayer)

def SLayer.label : SLayer → String
  | .mk lb _ _ _ _ => lb

def SLayer.style : SLayer → List (String × String)
  | .mk _ st _ _ _ => st

def SLayer.texts : SLayer → List TextEl
  | .mk _ _ tx _ _ => tx

def SLayer.ownUse : SLayer → Bool
  | .mk _ _ _ us _ => us

def SLayer.subs : SLayer → List SLayer
  | .mk _ _ _ _ sb => sb

/-- The parsed SVG document: its top-level layers (the `./svg:g[layer]`
children of the root) and whether a `sodipodi:namedview` element is
present. -/
structure SDoc where
  layers : List SLayer
  namedview : Bool

/-- Induction principle for the nested inductive `SLayer`, with a second
motive for sub-layer lists. -/
theorem SLayer.indPair (P : SLayer → Prop) (PL : List SLayer → Prop)
    (hmk : ∀ lb st tx us subs, PL subs → P (.mk lb st tx us subs))
    (hnil : PL [])
    (hcons : ∀ x xs, P x → PL xs → PL (x :: xs)) :
    (∀ t, P t) ∧ (∀ ts, PL ts) := by
  have h1 : ∀ t, P t := fun t => @SLayer.rec P PL hmk hnil hcons t
  refine ⟨h1, ?_⟩
  intro ts
  induction ts with
  | nil => exact hnil
  | cons x xs ih => exact hcons x xs (h1 x) ih

mutual
/-- Structural equality test on layers (used where the source compares
serialized bytes / sha256 digests). -/
def layerBeq : SLayer → SLayer → Bool
  | .mk lb1 st1 tx1 us1 sb1, .mk lb2 st2 tx2 us2 sb2 =>
    lb1 = lb2 && st1 = st2 && tx1 = tx2 && us1 = us2 && layerBeqL sb1 sb2

def layerBeqL : List SLayer → List SLayer → Bool
  | [], [] => true
  | x :: xs, y :: ys => layerBeq x y && layerBeqL xs ys
  | _, _ => false
end

def docBeq (a b : SDoc) : Bool :=
  layerBeqL a.layers b.layers && a.namedview = b.namedview

theorem layerBeq_iff :
    (∀ a b : SLayer, layerBeq a b = true ↔ a = b) ∧
    (∀ as bs : List SLayer, layerBeqL as bs = true ↔ as = bs) := by
  have key := SLayer.indPair
    (fun a => ∀ b, layerBeq a b = true ↔ a = b)
    (fun as => ∀ bs, layerBeqL as bs = true ↔ as = bs)
    (by
      intro lb st tx us subs ih b
      cases b with
      | mk lb2 st2 tx2 us2 subs2 =>
        simp only [layerBeq, Bool.and_eq_true, decide_eq_true_eq, ih subs2, SLayer.mk.injEq]
        tauto)
    (by
      intro bs
      cases bs <;> simp [layerBeqL])
    (by
      intro x xs ihx ihxs bs
      cases bs with
      | nil => simp [layerBeqL]
      | cons y ys =>
        simp only [layerBeqL, Bool.and_eq_true, ihx y, ihxs ys, List.cons.injEq])
  exact ⟨fun a b => key.1 a b, fun as bs => key.2 as bs⟩

theorem docBeq_iff (a b : SDoc) : docBeq a b = true ↔ a = b := by
  cases a with
  | mk la na =>
    cases b with
    | mk lb nb =>
      simp only [docBeq, Bool.and_eq_true, decide_eq_true_eq, layerBeq_iff.2, SDoc.mk.injEq]

theorem docBeq_refl (a : SDoc) : docBeq a a = true := (docBeq_iff a a).mpr rfl

end Inkslides

namespace Inkslides

/-! ## Plan compiler (`InkSlides.get_layer_structure` and helpers)

`get_layer_structure` walks the top-level layers ("groups"), their child
layers ("slides") and grandchild layers ("frames"), numbering `num_slide`
once per slide, and expands the `#master#` and `#import#` text directives
into each frame's layer-name list. -/

/-- Errors raised while building the content description. -/
inductive PlanError where
  | removeMissing (name : String)  -- `list.remove` raises `ValueError`
  | emptyTextIndex                 -- `l.text[0]` on an empty string raises `IndexError`
  deriving DecidableEq

/-- Does a text element carry a tspan whose text starts with the marker?
(the `svg:tspan[starts-with(text(),m)]` predicate; a `None` text never
matches). -/
def isMarkedText (marker : String) (t : TextEl) : Bool :=
  t.tspans.any fun o =>
    match o with
    | some s => startsWithB s marker
    | none => false

mutual
/-- All `svg:text` elements of a layer and its descendants in document
order (texts of a layer are visited before its sub-layers'). -/
def allTextsL : SLayer → List TextEl
  | .mk _ _ tx _ subs => tx ++ allTextsLs subs

def allTextsLs : List SLayer → List TextEl
  | [] => []
  | x :: xs => allTextsL x ++ allTextsLs xs
end

/-- All text elements of the document (the `//svg:text/...` global xpath of
`add_master_layers`; text elements live inside layers). -/
def allTextsDoc (d : SDoc) : List TextEl := allTextsLs d.layers

/-- The first text element of the document marked `#master#`, if any
(`cur_content_lines[0]` of `add_master_layers`). -/
def findMasterText (d : SDoc) : Option TextEl :=
  (allTextsDoc d).find? (isMarkedText "#master#")

/-- `InkSlides.add_master_layers`: append the non-`None` texts of the tspans
after the first one of the document's `#master#` text element, stripped. -/
def add_master_layers (master : Option TextEl) (current_layers : List String) : List String :=
  match master with
  | none => current_layers
  | some t =>
    if t.tspans.length > 0 then
      current_layers ++ (t.tspans.drop 1).filterMap (fun o => o.map stripStr)
    else current_layers

/-- The line-by-line body of `add_imported_layers`: a `None` text is
skipped; a text whose first character is `-` removes that name
(`list.remove`, a `ValueError` when absent); any other non-empty text is
appended stripped.  Indexing `l.text[0]` on an empty string would raise
`IndexError`. -/
def applyImportLines : List (Option String) → List String → Except PlanError (List String)
  | [], current_layers => .ok current_layers
  | none :: rest, current_layers => applyImportLines rest current_layers
  | some s :: rest, current_layers =>
    match s.data.head? with
    | none => .error .emptyTextIndex
    | some c =>
      if c = '-' then
        match removeFirst (String.mk (s.data.drop 1)) current_layers with
        | some current_layers' => applyImportLines rest current_layers'
        | none => .error (.removeMissing (String.mk (s.data.drop 1)))
      else
        applyImportLines rest (current_layers ++ [stripStr s])

/-- `InkSlides.add_imported_layers`: apply the lines following the layer's
own `#import#` marker (first matching direct `svg:text` child). -/
def add_imported_layers (layer : SLayer) (current_layers : List String) :
    Except PlanError (List String) :=
  match layer.texts.find? (isMarkedText "#import#") with
  | none => .ok current_layers
  | some t =>
    if t.tspans.length > 0 then applyImportLines (t.tspans.drop 1) current_layers
    else .ok current_layers

/-- The inner sublayer loop of `get_layer_structure`: for each sublayer,
append its label to the running list, apply its `#import#` directive, and
emit a snapshot frame. -/
def processSublayers (master : Option TextEl) (num_slide : Nat) (current_slide : List String) :
    List SLayer → Except PlanError (List (Nat × List String))
  | [] => .ok []
  | sub :: rest => do
    let current_slide' ← add_imported_layers sub (current_slide ++ [sub.label])
    let frames ← processSublayers master num_slide current_slide' rest
    .ok ((num_slide, current_slide') :: frames)

/-- The body of the slide loop of `get_layer_structure` for one slide:
start from `[group label, slide label]`, apply `#master#` then the slide's
`#import#`, then emit one frame per sublayer (or a single frame when the
slide has none). -/
def processSlide (master : Option TextEl) (secLabel : String) (num_slide : Nat)
    (slide : SLayer) : Except PlanError (List (Nat × List String)) := do
  let current_slide := [secLabel, slide.label]
  let current_slide := add_master_layers master current_slide
  let current_slide ← add_imported_layers slide current_slide
  match slide.subs with
  | [] => .ok [(num_slide, current_slide)]
  | sub :: rest => processSublayers master num_slide current_slide (sub :: rest)

/-- The slide loop over one group, threading the running `num_slide`
counter (which increments once per slide, across all groups). -/
def processSlides (master : Option TextEl) (secLabel : String) :
    List SLayer → Nat → Except PlanError (List (Nat × List String) × Nat)
  | [], n => .ok ([], n)
  | slide :: rest, n => do
    let frames ← processSlide master secLabel (n + 1) slide
    let (frames', n') ← processSlides master secLabel rest (n + 1)
    .ok (frames ++ frames', n')

/-- The group loop of `get_layer_structure`. -/
def processSecs (master : Option TextEl) :
    List SLayer → Nat → Except PlanError (List (Nat × List String) × Nat)
  | [], n => .ok ([], n)
  | sec :: rest, n => do
    let (frames, n') ← processSlides master sec.label sec.subs n
    let (frames', n'') ← processSecs master rest n'
    .ok (frames ++ frames', n'')

/-- `InkSlides.get_layer_structure` (structured mode): the ordered slide
plan, a list of `(num_slide, layer-name list)` frames. -/
def get_layer_structure (doc : SDoc) : Except PlanError (List (Nat × List String)) :=
  (processSecs (findMasterText doc) doc.layers 0).map Prod.fst

/-! ## Tree paths, style edits and node queries

`get_all_layers` builds a dict from `inkscape:label` to a live node
reference over all layers in document order (a later duplicate label
overwrites an earlier one).  Node references are modelled as child-index
paths into the tree; mutating a referenced node is `docModify`. -/

mutual
/-- Label/path pairs of a layer and its descendants, in document order. -/
def layerEntries (t : SLayer) (p : List Nat) : List (String × List Nat) :=
  match t with
  | .mk lb _ _ _ subs => (lb, p) :: layerEntriesL subs p 0

def layerEntriesL (ts : List SLayer) (p : List Nat) (i : Nat) : List (String × List Nat) :=
  match ts with
  | [] => []
  | x :: xs => layerEntries x (p ++ [i]) ++ layerEntriesL xs p (i + 1)
end

def docLayerEntries (d : SDoc) : List (String × List Nat) := layerEntriesL d.layers [] 0

/-- `get_all_layers`: the label → node dict (`ret[label] = l` in document
order, so a later occurrence of a label wins). -/
def get_all_layers (d : SDoc) : List (String × List Nat) :=
  (docLayerEntries d).foldl (fun acc kv => dinsert kv.1 kv.2 acc) []

mutual
/-- Apply `f` to the node addressed by the path, leaving everything else
untouched. -/
def modifyL (p : List Nat) (f : SLayer → SLayer) : SLayer → SLayer
  | .mk lb st tx us subs =>
    match p with
    | [] => f (.mk lb st tx us subs)
    | i :: rest => .mk lb st tx us (modifyLs i rest f subs)

def modifyLs (i : Nat) (rest : List Nat) (f : SLayer → SLayer) : List SLayer → List SLayer
  | [] => []
  | x :: xs =>
    match i with
    | 0 => modifyL rest f x :: xs
    | i' + 1 => x :: modifyLs i' rest f xs
end

def docModify (p : List Nat) (f : SLayer → SLayer) (d : SDoc) : SDoc :=
  match p with
  | [] => d
  | i :: rest => ⟨modifyLs i rest f d.layers, d.namedview⟩

mutual
/-- The style dict of the node addressed by the path. -/
def styleAtL : List Nat → SLayer → Option (List (String × String))
  | [], .mk _ st _ _ _ => some st
  | i :: rest, .mk _ _ _ _ subs => styleAtLs i rest subs

def styleAtLs : Nat → List Nat → List SLayer → Option (List (String × String))
  | _, _, [] => none
  | i, rest, x :: xs =>
    match i with
    | 0 => styleAtL rest x
    | i' + 1 => styleAtLs i' rest xs
end

def styleAtDoc (p : List Nat) (d : SDoc) : Option (List (String × String)) :=
  match p with
  | [] => none
  | i :: rest => styleAtLs i rest d.layers

mutual
def nodeAtL : List Nat → SLayer → Option SLayer
  | [], t => some t
  | i :: rest, .mk _ _ _ _ subs => nodeAtLs i rest subs

def nodeAtLs : Nat → List Nat → List SLayer → Option SLayer
  | _, _, [] => none
  | i, rest, x :: xs =>
    match i with
    | 0 => nodeAtL rest x
    | i' + 1 => nodeAtLs i' rest xs
end

def nodeAtDoc (p : List Nat) (d : SDoc) : Option SLayer :=
  match p with
  | [] => none
  | i :: rest => nodeAtLs i rest d.layers

mutual
/-- Does the subtree contain an `svg:use` element (the `.//svg:use` xpath
of `create_slides_svg`)? -/
def hasUseL : SLayer → Bool
  | .mk _ _ _ us subs => us || hasUseLs subs

def hasUseLs : List SLayer → Bool
  | [] => false
  | x :: xs => hasUseL x || hasUseLs xs
end

/-- `.//svg:use` on the node a dict entry references.  The loop of
`create_slides_svg` evaluates it on the live node of the (style-mutated)
working copy; style edits do not change the `svg:use` content, so the
pristine clone gives the same answer. -/
def hasUseAtDoc (p : List Nat) (d : SDoc) : Bool :=
  match nodeAtDoc p d with
  | some n => hasUseL n
  | none => false

/-- Setting one key of a node's style attribute, as
`styles = get_styles(el); styles[k] = v; set_styles(el, styles)` does. -/
def styleIns (k v : String) : SLayer → SLayer
  | .mk lb st tx us subs => .mk lb (dinsert k v st) tx us subs

/-- `utils.show_layer`: set `display:inline` on the layer (the packaged
version touches no opacity and no ancestor). -/
def show_layer : SLayer → SLayer := styleIns "display" "inline"

/-- One `styles['display'] = 'none'` step of `utils.hide_all_layers`. -/
def hideStyle : SLayer → SLayer := styleIns "display" "none"

/-- `utils.hide_all_layers`: hide every layer the `get_all_layers` dict
references (one node per distinct label). -/
def hide_all_layers (d : SDoc) : SDoc :=
  (get_all_layers d).foldl (fun dd kv => docModify kv.2 hideStyle dd) d

/-- `utils.set_styles` output: the `style` attribute string, `"k:v"` items
sorted and joined with `;`. -/
def render_styles (st : List (String × String)) : String :=
  String.intercalate ";" (sortStrs (st.map fun kv => kv.1 ++ ":" ++ kv.2))

end Inkslides

namespace Inkslides

/-! ## Slide materializer (`InkSlides.create_slides_svg`, per frame)

For one plan entry, the loop deep-copies the (already globally hidden)
document, shows each listed layer, prunes hidden top-level layers and the
`sodipodi:namedview` element unless a shown layer contains an `svg:use`
reference, substitutes the `#num#` / `#frame_num#` placeholders, and writes
the result. -/

inductive MatError where
  | keyError (name : String)  -- `tmp_layers[layer]` on an unknown label
  | noNamedview               -- `doc.xpath('//sodipodi:namedview')[0]` on a document without one
  deriving DecidableEq

/-- The `for layer in slide:` loop: show each named layer on the working
copy and clear `do_delete` when the referenced node contains `svg:use`.
`root` is the pristine working copy from which `tmp_layers` was built;
node references resolve against it. -/
def showLoop (root : SDoc) (dict : List (String × List Nat)) :
    List String → SDoc × Bool → Except MatError (SDoc × Bool)
  | [], st => .ok st
  | n :: ns, (d, del) =>
    match dlookup n dict with
    | none => .error (.keyError n)
    | some p => showLoop root dict ns (docModify p show_layer d, del && !(hasUseAtDoc p root))

/-- `to_be_deleted` removal: drop every top-level layer whose rendered
`style` attribute contains `display:none`, and the `sodipodi:namedview`
element (an `IndexError` when the document has none). -/
def pruneDoc (d : SDoc) : Except MatError SDoc :=
  if d.namedview then
    .ok ⟨d.layers.filter (fun l => !(containsSub (render_styles l.style) "display:none")), false⟩
  else .error .noNamedview

def substText (tok val : String) (t : TextEl) : TextEl :=
  ⟨t.tspans.map fun o => if o = some tok then some val else o⟩

mutual
/-- Replace every tspan whose text equals `tok` by `val`
(the `//svg:text/svg:tspan[text()=tok]` substitution loops). -/
def substL (tok val : String) : SLayer → SLayer
  | .mk lb st tx us subs => .mk lb st (tx.map (substText tok val)) us (substLs tok val subs)

def substLs (tok val : String) : List SLayer → List SLayer
  | [] => []
  | x :: xs => substL tok val x :: substLs tok val xs
end

def substDoc (tok val : String) (d : SDoc) : SDoc :=
  ⟨substLs tok val d.layers, d.namedview⟩

/-- The document value one iteration of `create_slides_svg` writes to
`slide-<frame>.svg`: shows, optional pruning, numbering substitution.
`root` is the hidden master document (`self.doc` after
`hide_all_layers`). -/
def materializeFrame (root : SDoc) (slide_num frame_num : Nat) (slide : List String) :
    Except MatError SDoc := do
  let (d, do_delete) ← showLoop root (get_all_layers root) slide (root, true)
  let d ← if do_delete then pruneDoc d else .ok d
  let d := substDoc "#num#" (toString slide_num) d
  let d := substDoc "#frame_num#" (toString frame_num) d
  .ok d

/-! ## Filesystem, cache decision and the run pipeline -/

/-- Contents of a file: a written intermediate SVG (its document tree
standing for its serialized bytes), a rendered PDF page (tagged with the
SVG document it was rendered from), or the merged output. -/
inductive FileData where
  | svgFile (d : SDoc)
  | pdfFile (d : SDoc)
  | merged (parts : List String)

/-- sha256-digest equality of two files' bytes, modelled as content
equality (collision-freeness assumed). -/
def fileBeq : FileData → FileData → Bool
  | .svgFile a, .svgFile b => docBeq a b
  | .pdfFile a, .pdfFile b => docBeq a b
  | .merged a, .merged b => a = b
  | _, _ => false

def FS : Type := String → Option FileData

def insertFS (fs : FS) (p : String) (v : FileData) : FS :=
  fun q => if q = p then some v else fs q

/-- `'{1}/slide-{0}.svg'.format(frame_num, self.tmp_folder)`. -/
def svgPathOf (tmp_folder : String) (frame_num : Nat) : String :=
  tmp_folder ++ "/slide-" ++ toString frame_num ++ ".svg"

/-- `InkSlides.pdf_from_svg`: `'.'.join(name.split('.')[:-1]) + '.pdf'`. -/
def pdf_from_svg (svg_file_name : String) : String :=
  String.intercalate "." (((splitCh '.' svg_file_name.data).dropLast).map String.mk) ++ ".pdf"

/-- One iteration of the `create_slides_svg` loop: record whether a file
already exists at the svg path and its prior bytes, write the materialized
document, and declare a cache hit iff the file pre-existed, the pre-write
digest equals the digest of the just-written bytes, and the target PDF
exists. -/
def materializeStep (root : SDoc) (tmp_folder : String) (frame_num slide_num : Nat)
    (slide : List String) (fs : FS) : Except MatError ((String × Bool) × FS) := do
  let d ← materializeFrame root slide_num frame_num slide
  let svg_path := svgPathOf tmp_folder frame_num
  let old := fs svg_path
  let fs' := insertFS fs svg_path (.svgFile d)
  let cached :=
    match old with
    | none => false
    | some oldV => fileBeq oldV (.svgFile d) && (fs' (pdf_from_svg svg_path)).isSome
  .ok ((svg_path, cached), fs')

/-- `InkSlides.create_slides_svg`: materialize every frame in plan order,
returning the `(svg path, cached)` list, the updated filesystem, and the
`only_cached` flag. -/
def create_slides_svg (root : SDoc) (tmp_folder : String) :
    List (Nat × List String) → Nat → FS →
    Except MatError (List (String × Bool) × FS × Bool)
  | [], _, fs => .ok ([], fs, true)
  | (slide_num, slide) :: rest, frame_num, fs => do
    let ((p, c), fs') ← materializeStep root tmp_folder frame_num slide_num slide fs
    let (files, fs'', only_cached) ← create_slides_svg root tmp_folder rest (frame_num + 1) fs'
    .ok ((p, c) :: files, fs'', c && only_cached)

/-! ## Merge stage (`merge.MergerWrapper`) -/

/-- Which merge backends the host offers: the importable `PyPDF2` package
and the `pdfunite` / `gs` executables on `PATH`. -/
structure ToolEnv where
  hasPyPDF2 : Bool
  hasPdfunite : Bool
  hasGs : Bool

inductive MergerKind where
  | pyPDFMerger
  | popplerMerger
  | texliveMerger
  deriving DecidableEq

/-- `MergerWrapper.find_merging_tool`: probe `TOOLS` in declaration order
(`PyPDF2`, `pdfunite`, `gs`) and return the first available merger class. -/
def find_merging_tool (env : ToolEnv) : Option MergerKind :=
  if env.hasPyPDF2 then some .pyPDFMerger
  else if env.hasPdfunite then some .popplerMerger
  else if env.hasGs then some .texliveMerger
  else none

/-- Errors escaping `MergerWrapper.__init__`. -/
inductive InitError where
  | typeErrorNoneNotCallable  -- `self.find_merging_tool()()` with no tool found calls `None`
  | mergeFailed (msg : String)
  deriving DecidableEq

/-- `MergerWrapper.__init__`: `self.merger = self.find_merging_tool()()`
instantiates the found class — or raises `TypeError` by calling `None` when
no tool exists, so the `if not self.merger: raise MergeFailedException`
guard below it can never fire. -/
def mergerWrapperInit (env : ToolEnv) : Except InitError MergerKind :=
  match find_merging_tool env with
  | none => .error .typeErrorNoneNotCallable
  | some cls =>
    -- a freshly constructed merger instance is always truthy, so the
    -- `if not self.merger` check is dead code on this branch too
    .ok cls

/-! ## Worker pool and render scheduling

Workers share one FIFO queue carrying `(svg, pdf, cached)` jobs followed by
one `None` sentinel per worker.  Each worker holds a long-lived
`inkscape --shell` process; completion order is a free parameter of the
model (`renderSchedule`'s `order`), while the merge input list is fixed
before any worker runs. -/

/-- A queue item: `some job` or the `None` shutdown sentinel. -/
def QItem : Type := Option (String × String × Bool)

/-- Observable actions of `InkscapeWorker.run`. -/
inductive WEvent where
  | spawned                      -- Popen(['inkscape', '--shell'], ...)
  | waitedReady                  -- wait_for_inkscape: read stdout byte-wise until '>'
  | sentCommand (svg pdf : String)
  | skipped (pdf : String)
  | killedProc                   -- an explicit kill/terminate of the inkscape child
  | exitedLoop
  deriving DecidableEq

/-- The job loop of `InkscapeWorker.run` after startup, on the sequence of
items this worker dequeues: `iter(self.queue.get, None)` stops at the first
sentinel; a non-cached job writes one command and waits for readiness. -/
def workerLoop : List QItem → List WEvent
  | [] => []
  | none :: _ => [.exitedLoop]
  | some (svg, pdf, cached) :: rest =>
    (if cached then [WEvent.skipped pdf]
     else [WEvent.sentCommand svg pdf, WEvent.waitedReady]) ++ workerLoop rest

/-- `InkscapeWorker.run`: spawn inkscape, wait for the first ready
sentinel, then run the job loop. -/
def workerRun (items : List QItem) : List WEvent :=
  WEvent.spawned :: WEvent.waitedReady :: workerLoop items

/-- The queue contents `InkSlides.run` enqueues: all render jobs in plan
order, then one `None` sentinel per worker. -/
def queueContents (jobs : List (String × String × Bool)) (num_workers : Nat) : List QItem :=
  jobs.map some ++ List.replicate num_workers none

/-- Rendering by the worker pool, abstracted over completion order: for
each queue position in `order`, a worker converts the job's svg file to its
pdf file unless the job was cached.  The pdf content records the svg
document rendered. -/
def renderStep (svgFiles : List (String × Bool)) (acc : FS) (i : Nat) : FS :=
  match svgFiles.get? i with
  | some (svg, cached) =>
    if cached then acc
    else
      match acc svg with
      | some (.svgFile d) => insertFS acc (pdf_from_svg svg) (.pdfFile d)
      | _ => acc
  | none => acc

def renderSchedule (svgFiles : List (String × Bool)) (order : List Nat) (fs : FS) : FS :=
  order.foldl (renderStep svgFiles) fs

inductive RunError where
  | planError (e : PlanError)
  | matError (e : MatError)
  | initError (e : InitError)
  deriving DecidableEq

/-- Outcome of one `InkSlides.run` invocation. -/
structure RunResult where
  onlyCached : Bool
  svgFiles : List (String × Bool)
  fs : FS
  workersSpawned : Nat
  /-- `merger.merge(self.pdf_files, self.f_output)` arguments, `none` when
  the merge stage never ran. -/
  mergeCall : Option (List String × String)

/-- `InkSlides.run` (keep-temp mode, where `clear_temp_folder` is a no-op):
parse and compile the plan, hide all layers, materialize every frame; if
everything was cached return at once; otherwise spawn workers, render the
misses (in the completion order `order`), and merge all pdf paths in plan
order into `<input-basename>.pdf`. -/
def runInkslides (env : ToolEnv) (num_workers : Nat) (doc : SDoc)
    (input_base tmp_folder : String) (fs0 : FS) (order : List Nat) :
    Except RunError RunResult := do
  let content ← (get_layer_structure doc).mapError .planError
  let root := hide_all_layers doc
  let (files, fs1, only_cached) ←
    (create_slides_svg root tmp_folder content 0 fs0).mapError .matError
  if only_cached then
    .ok ⟨true, files, fs1, 0, none⟩
  else
    let pdf_files := files.map fun sc => pdf_from_svg sc.1
    let fs2 := renderSchedule files order fs1
    let _ ← (mergerWrapperInit env).mapError .initError
    let f_output := input_base ++ ".pdf"
    let fs3 := insertFS fs2 f_output (.merged pdf_files)
    .ok ⟨false, files, fs3, num_workers, some (pdf_files, f_output)⟩

end Inkslides

namespace Inkslides

/-! ## Association-list and removal lemmas -/

theorem dlookup_dinsert_self {β : Type} (k : String) (v : β) (l : List (String × β)) :
    dlookup k (dinsert k v l) = some v := by
  induction l with
  | nil => simp [dinsert, dlookup]
  | cons kv rest ih =>
    obtain ⟨k', v'⟩ := kv
    by_cases h : k' = k
    · simp [dinsert, dlookup, h]
    · simp [dinsert, dlookup, h, ih]

theorem dlookup_dinsert_ne {β : Type} (k k' : String) (v : β) (l : List (String × β))
    (h : k' ≠ k) : dlookup k' (dinsert k v l) = dlookup k' l := by
  have hne : ¬(k = k') := fun hh => h hh.symm
  induction l with
  | nil => simp [dinsert, dlookup, hne]
  | cons kv rest ih =>
    obtain ⟨k0, v0⟩ := kv
    by_cases h0 : k0 = k
    · subst h0
      simp [dinsert, dlookup, hne]
    · simp [dinsert, dlookup, h0, ih]

theorem dinsert_dinsert_self {β : Type} (k : String) (v : β) (l : List (String × β)) :
    dinsert k v (dinsert k v l) = dinsert k v l := by
  induction l with
  | nil => simp [dinsert]
  | cons kv rest ih =>
    obtain ⟨k', v'⟩ := kv
    by_cases h : k' = k
    · simp [dinsert, h]
    · simp [dinsert, h, ih]

theorem removeFirst_eq_none {x : String} {l : List String} :
    removeFirst x l = none ↔ x ∉ l := by
  induction l with
  | nil => simp [removeFirst]
  | cons y ys ih =>
    by_cases h : y = x
    · simp [removeFirst, h]
    · constructor
      · intro hr hmem
        rcases List.mem_cons.mp hmem with h1 | h1
        · exact h h1.symm
        · simp only [removeFirst, if_neg h, Option.map_eq_none'] at hr
          exact (ih.mp hr) h1
      · intro hmem
        simp only [removeFirst, if_neg h, Option.map_eq_none']
        exact ih.mpr (fun hx => hmem (List.mem_cons_of_mem _ hx))

theorem removeFirst_append_cons (x : String) (pre suf : List String) (h : x ∉ pre) :
    removeFirst x (pre ++ x :: suf) = some (pre ++ suf) := by
  induction pre with
  | nil => simp [removeFirst]
  | cons y ys ih =>
    have hy : y ≠ x := fun hh => h (hh ▸ List.mem_cons_self y ys)
    have hx : x ∉ ys := fun hh => h (List.mem_cons_of_mem _ hh)
    simp [removeFirst, hy, ih hx]

/-! ## C4 — no merge tool available (code bug)

`MergerWrapper.__init__` runs `self.merger = self.find_merging_tool()()`.
With no PyPDF2, no `pdfunite` and no `gs`, `find_merging_tool` returns
`None`, so the call `None()` raises `TypeError: 'NoneType' object is not
callable` *before* reaching the `if not self.merger: raise
MergeFailedException("No tool to merge PDF Files available")` guard, which
is therefore dead code.  The run still aborts, but with the wrong,
undescriptive error. -/

/-- C4: in an environment with no merge mechanism, constructing the merger
raises `TypeError` from calling `None`, not the intended distinct
`MergeFailedException("No tool to merge PDF Files available")`; the guard
that would raise it is unreachable. -/
theorem merger_init_no_tools_raises_TypeError :
    mergerWrapperInit ⟨false, false, false⟩ = .error .typeErrorNoneNotCallable
    ∧ ∀ msg, mergerWrapperInit ⟨false, false, false⟩ ≠ .error (.mergeFailed msg) := by
  refine ⟨rfl, fun msg h => ?_⟩
  have : InitError.typeErrorNoneNotCallable = InitError.mergeFailed msg := by
    have h0 : (Except.error InitError.typeErrorNoneNotCallable :
        Except InitError MergerKind) = .error (.mergeFailed msg) := h
    exact Except.error.inj h0
  exact absurd this (by simp)

end Inkslides

namespace Inkslides

/-! ## C6 — the `#import#` directive -/

/-- The lines following a layer's `#import#` marker (empty when the layer
carries none). -/
def importLinesOf (l : SLayer) : List (Option String) :=
  match l.texts.find? (isMarkedText "#import#") with
  | none => []
  | some t => if t.tspans.length > 0 then t.tspans.drop 1 else []

/-- C6 (amended): the `#import#` lines are applied in listed order to the
accumulated layer list: a `None` line is skipped, a line not starting with
`-` is appended stripped, and a `-`-prefixed line removes the *first*
occurrence of the name — raising an error (`list.remove`'s `ValueError`,
aborting plan compilation) when the name is absent, rather than being
ignored.  Finally, `add_imported_layers` is exactly this application of the
layer's directive lines. -/
theorem import_directive_semantics (s : String) (c : Char) (rest : List (Option String))
    (cur pre suf : List String) (layer : SLayer) (t : TextEl) :
    (applyImportLines (none :: rest) cur = applyImportLines rest cur)
    ∧ (s.data.head? = some c → c ≠ '-' →
        applyImportLines (some s :: rest) cur = applyImportLines rest (cur ++ [stripStr s]))
    ∧ (s.data.head? = some '-' → String.mk (s.data.drop 1) ∉ pre →
        applyImportLines (some s :: rest) (pre ++ String.mk (s.data.drop 1) :: suf)
          = applyImportLines rest (pre ++ suf))
    ∧ (s.data.head? = some '-' → String.mk (s.data.drop 1) ∉ cur →
        applyImportLines (some s :: rest) cur
          = .error (.removeMissing (String.mk (s.data.drop 1))))
    ∧ (layer.texts.find? (isMarkedText "#import#") = some t → t.tspans.length > 0 →
        add_imported_layers layer cur = applyImportLines (t.tspans.drop 1) cur) := by
  refine ⟨rfl, ?_, ?_, ?_, ?_⟩
  · intro hh hc
    simp [applyImportLines, hh, hc]
  · intro hh hmem
    rw [show String.mk (s.data.drop 1) = String.mk s.data.tail by rw [List.drop_one]] at hmem ⊢
    simp [applyImportLines, hh, removeFirst_append_cons _ _ _ hmem]
  · intro hh hmem
    rw [show String.mk (s.data.drop 1) = String.mk s.data.tail by rw [List.drop_one]] at hmem ⊢
    simp [applyImportLines, hh, removeFirst_eq_none.mpr hmem]
  · intro hf hl
    simp [add_imported_layers, hf, hl]

/-- C6 witness: concrete appends, a concrete removal of a present name, and
a concrete removal failure. -/
theorem import_directive_semantics_witness :
    applyImportLines [some "x"] ["a"] = .ok ["a", "x"]
    ∧ applyImportLines [some "-a"] ["a", "b"] = .ok ["b"]
    ∧ applyImportLines [some "-z"] ["a"] = .error (.removeMissing "z") := by
  refine ⟨?_, ?_, ?_⟩
  · have h := (import_directive_semantics "x" 'x' [] ["a"] [] [] (.mk "" [] [] false []) ⟨[]⟩).2.1
      (by decide) (by decide)
    exact h.trans (by rfl)
  · have h := (import_directive_semantics "-a" '-' [] [] [] ["b"] (.mk "" [] [] false []) ⟨[]⟩).2.2.1
      (by decide) (by decide)
    exact h.trans (by rfl)
  · have h := (import_directive_semantics "-z" '-' [] ["a"] [] [] (.mk "" [] [] false []) ⟨[]⟩).2.2.2.1
      (by decide) (by decide)
    exact h.trans (by rfl)

/-- The slide used to refute the claim that removing an absent name is not
an error: an `#import#` directive whose only line removes `zzz`, which is
not in the accumulated list. -/
def c6slide : SLayer := .mk "S" [] [⟨[some "#import#", some "-zzz"]⟩] false []

/-- C6 counterexample: the claim says removal of an absent name "is not an
error", but `add_imported_layers` raises (`list.remove` → `ValueError`). -/
theorem import_remove_absent_errors :
    add_imported_layers c6slide ["G", "S"] = .error (.removeMissing "zzz") := by rfl

/-! ## C5 — worker shutdown protocol -/

/-- C5 helper: real jobs sit before the sentinels in the queue. -/
theorem queue_get_none_past_jobs (jobs : List (String × String × Bool)) (n k : Nat)
    (h : (queueContents jobs n).get? k = some none) :
    jobs.length ≤ k := by
  by_contra hlt
  push_neg at hlt
  have hk : (queueContents jobs n).get? k = (jobs.map some).get? k := by
    unfold queueContents
    exact List.get?_append (by simpa using hlt)
  rw [hk, List.get?_map, List.get?_eq_get hlt] at h
  simp at h

/-- C5 (amended): (a) the worker never explicitly terminates its inkscape
child — on dequeuing the `None` sentinel it simply leaves the loop (the
process only dies later when its stdin closes); (b) a worker whose dequeue
sequence is all real jobs followed by a sentinel processes every one of
those jobs before exiting; (c) since the sentinels are enqueued after all
real jobs in the FIFO queue, any dequeue of a sentinel happens only when no
real job remains in the queue. -/
theorem worker_shutdown (items : List QItem) (jobs : List (String × String × Bool))
    (tail : List QItem) (n k : Nat)
    (hsent : (queueContents jobs n).get? k = some none) :
    (WEvent.killedProc ∉ workerRun items)
    ∧ (workerLoop (jobs.map some ++ none :: tail) = workerLoop (jobs.map some ++ [none]))
    ∧ (∀ q ∈ (queueContents jobs n).drop k, q = none) := by
  refine ⟨?_, ?_, ?_⟩
  · unfold workerRun
    simp only [List.mem_cons]
    push_neg
    refine ⟨by simp, by simp, ?_⟩
    induction items with
    | nil => simp [workerLoop]
    | cons it rest ih =>
      cases it with
      | none => simp [workerLoop]
      | some j =>
        obtain ⟨svg, pdf, cached⟩ := j
        cases cached <;> simp [workerLoop, ih]
  · clear hsent
    induction jobs with
    | nil => simp [workerLoop]
    | cons j rest ih =>
      obtain ⟨svg, pdf, cached⟩ := j
      cases cached <;> simp [workerLoop, ih]
  · intro q hq
    have hlen := queue_get_none_past_jobs jobs n k hsent
    unfold queueContents at hq
    have hk : k = (jobs.map some).length + (k - (jobs.map some).length) := by
      simp only [List.length_map]
      omega
    rw [hk, List.drop_append] at hq
    exact List.eq_of_mem_replicate (List.mem_of_mem_drop hq)

end Inkslides

namespace Inkslides

/-- C5 witness: a pool of 2 workers and one real job; the sentinel at queue
position 1 leaves only sentinels behind, and a worker that dequeues
`[job, None]` converts the job, exits, and never kills its child. -/
theorem worker_shutdown_witness :
    (WEvent.killedProc ∉ workerRun [some ("a.svg", "a.pdf", false), none])
    ∧ (workerLoop ([("a.svg", "a.pdf", false)].map some ++ none :: [none])
        = workerLoop ([("a.svg", "a.pdf", false)].map some ++ [none]))
    ∧ (∀ q ∈ (queueContents [("a.svg", "a.pdf", false)] 2).drop 1, q = none) := by
  have h := worker_shutdown [some ("a.svg", "a.pdf", false), none]
    [("a.svg", "a.pdf", false)] [none] 2 1 (by rfl)
  exact h

/-- C5 counterexample: the claim says a worker dequeuing the sentinel
"terminates its long-lived external renderer process and then exits"; the
trace on the sentinel-only queue `[None]` exits the loop without any kill
of the inkscape child (`InkscapeWorker.run` has no kill/terminate call;
contrast `create_slides_pdf`'s legacy `ink.kill()`). -/
theorem worker_sentinel_no_terminate :
    workerRun [none] = [.spawned, .waitedReady, .exitedLoop]
    ∧ WEvent.killedProc ∉ workerRun [none] := by
  refine ⟨rfl, ?_⟩
  decide

end Inkslides

namespace Inkslides

/-! ## Except helpers -/

@[simp] theorem except_bind_ok {ε α β : Type} (a : α) (f : α → Except ε β) :
    (Except.ok a >>= f) = f a := rfl

@[simp] theorem except_bind_err {ε α β : Type} (e : ε) (f : α → Except ε β) :
    ((Except.error e : Except ε α) >>= f) = .error e := rfl

@[simp] theorem except_map_ok {ε α β : Type} (a : α) (f : α → β) :
    (Except.ok a : Except ε α).map f = .ok (f a) := rfl

@[simp] theorem except_map_err {ε α β : Type} (e : ε) (f : α → β) :
    (Except.error e : Except ε α).map f = .error e := rfl

/-! ## C1 — the groupIndex sequence

`num_slide` in `get_layer_structure` increments once per *slide* (the
second-level layers), not once per top-level group, so the first component
of a plan entry is the 1-based position of the entry's enclosing slide
among all slides of the document. -/

/-- All slides of the document: the immediate layer children of the
top-level groups, in document order. -/
def slidesOf (doc : SDoc) : List SLayer := doc.layers.flatMap SLayer.subs

/-- How many frames a slide expands to: one per sublayer, or a single frame
when it has none. -/
def frameCount (s : SLayer) : Nat :=
  match s.subs with
  | [] => 1
  | l => l.length

/-- The expected first components of the plan: slide number `j` (1-based)
repeated once per frame of slide `j`. -/
def specGroupIdx : Nat → List SLayer → List Nat
  | _, [] => []
  | n, s :: rest => List.replicate (frameCount s) (n + 1) ++ specGroupIdx (n + 1) rest

theorem processSublayers_map_fst (master : Option TextEl) (num : Nat) :
    ∀ (subs : List SLayer) (cur : List String) (frames : List (Nat × List String)),
      processSublayers master num cur subs = .ok frames →
      frames.map Prod.fst = List.replicate subs.length num := by
  intro subs
  induction subs with
  | nil =>
    intro cur frames h
    simp [processSublayers] at h
    simp [← h]
  | cons sub rest ih =>
    intro cur frames h
    simp only [processSublayers] at h
    cases h1 : add_imported_layers sub (cur ++ [sub.label]) with
    | error e => rw [h1] at h; simp at h
    | ok cur' =>
      rw [h1] at h
      simp only [except_bind_ok] at h
      cases h2 : processSublayers master num cur' rest with
      | error e => rw [h2] at h; simp at h
      | ok fr =>
        rw [h2] at h
        simp only [except_bind_ok, Except.ok.injEq] at h
        subst h
        simp [ih cur' fr h2, List.replicate_succ]

theorem processSlide_map_fst (master : Option TextEl) (secLabel : String) (num : Nat)
    (slide : SLayer) (frames : List (Nat × List String))
    (h : processSlide master secLabel num slide = .ok frames) :
    frames.map Prod.fst = List.replicate (frameCount slide) num := by
  simp only [processSlide] at h
  cases h1 : add_imported_layers slide (add_master_layers master [secLabel, slide.label]) with
  | error e => rw [h1] at h; simp at h
  | ok cur =>
    rw [h1] at h
    simp only [except_bind_ok] at h
    cases hs : slide.subs with
    | nil =>
      rw [hs] at h
      simp only [Except.ok.injEq] at h
      subst h
      simp [frameCount, hs]
    | cons sub rest =>
      rw [hs] at h
      have := processSublayers_map_fst master num (sub :: rest) cur frames h
      simpa [frameCount, hs] using this

theorem specGroupIdx_append (a b : List SLayer) :
    ∀ n, specGroupIdx n (a ++ b) = specGroupIdx n a ++ specGroupIdx (n + a.length) b := by
  induction a with
  | nil => intro n; simp [specGroupIdx]
  | cons s rest ih =>
    intro n
    simp [specGroupIdx, ih (n + 1), Nat.add_assoc, Nat.add_comm 1 rest.length]

theorem processSlides_spec (master : Option TextEl) (secLabel : String) :
    ∀ (slides : List SLayer) (n n' : Nat) (frames : List (Nat × List String)),
      processSlides master secLabel slides n = .ok (frames, n') →
      n' = n + slides.length ∧ frames.map Prod.fst = specGroupIdx n slides := by
  intro slides
  induction slides with
  | nil =>
    intro n n' frames h
    simp [processSlides] at h
    obtain ⟨h1, h2⟩ := h
    exact ⟨h2.symm, by simp [← h1, specGroupIdx]⟩
  | cons slide rest ih =>
    intro n n' frames h
    simp only [processSlides] at h
    cases h1 : processSlide master secLabel (n + 1) slide with
    | error e => rw [h1] at h; simp at h
    | ok fr =>
      rw [h1] at h
      simp only [except_bind_ok] at h
      cases h2 : processSlides master secLabel rest (n + 1) with
      | error e => rw [h2] at h; simp at h
      | ok p =>
        obtain ⟨fr', n''⟩ := p
        rw [h2] at h
        simp only [except_bind_ok, Except.ok.injEq, Prod.mk.injEq] at h
        obtain ⟨hfr, hn⟩ := h
        obtain ⟨ha, hb⟩ := ih (n + 1) n'' fr' h2
        subst hfr hn
        constructor
        · simp only [List.length_cons]
          omega
        · simp [specGroupIdx, processSlide_map_fst master secLabel (n + 1) slide fr h1, hb]

theorem processSecs_spec (master : Option TextEl) :
    ∀ (secs : List SLayer) (n n' : Nat) (frames : List (Nat × List String)),
      processSecs master secs n = .ok (frames, n') →
      n' = n + (secs.flatMap SLayer.subs).length
      ∧ frames.map Prod.fst = specGroupIdx n (secs.flatMap SLayer.subs) := by
  intro secs
  induction secs with
  | nil =>
    intro n n' frames h
    simp [processSecs] at h
    obtain ⟨h1, h2⟩ := h
    exact ⟨h2.symm, by simp [← h1, specGroupIdx]⟩
  | cons sec rest ih =>
    intro n n' frames h
    simp only [processSecs] at h
    cases h1 : processSlides master sec.label sec.subs n with
    | error e => rw [h1] at h; simp at h
    | ok p =>
      obtain ⟨fr, n1⟩ := p
      rw [h1] at h
      simp only [except_bind_ok] at h
      cases h2 : processSecs master rest n1 with
      | error e => rw [h2] at h; simp at h
      | ok q =>
        obtain ⟨fr', n2⟩ := q
        rw [h2] at h
        simp only [except_bind_ok, Except.ok.injEq, Prod.mk.injEq] at h
        obtain ⟨hfr, hn⟩ := h
        obtain ⟨ha, hb⟩ := processSlides_spec master sec.label sec.subs n n1 fr h1
        obtain ⟨hc, hd⟩ := ih n1 n2 fr' h2
        subst hfr hn
        constructor
        · simp only [List.flatMap_cons, List.length_append]
          omega
        · simp only [List.flatMap_cons, List.map_append, hb, hd, ha,
            specGroupIdx_append]

theorem specGroupIdx_sorted :
    ∀ (l : List SLayer) (n : Nat),
      List.Pairwise (· ≤ ·) (specGroupIdx n l) ∧ ∀ m ∈ specGroupIdx n l, n < m := by
  intro l
  induction l with
  | nil => intro n; simp [specGroupIdx]
  | cons s rest ih =>
    intro n
    obtain ⟨ihp, ihm⟩ := ih (n + 1)
    constructor
    · rw [specGroupIdx, List.pairwise_append]
      refine ⟨List.pairwise_replicate.mpr (Or.inr le_rfl), ihp, ?_⟩
      intro a ha b hb
      have ha' := List.eq_of_mem_replicate ha
      have hb' := ihm b hb
      omega
    · intro m hm
      rw [specGroupIdx, List.mem_append] at hm
      rcases hm with hm | hm
      · have := List.eq_of_mem_replicate hm
        omega
      · have := ihm m hm
        omega

/-- C1 (amended): in structured mode the plan's groupIndex sequence is
non-decreasing, and every entry's groupIndex is the 1-based position of the
entry's enclosing *slide* (second-level layer) among all slides of the
document — `num_slide` increments once per slide, not once per top-level
group — so all frames of the same slide (not of the same group) share one
groupIndex. -/
theorem plan_groupIndex (doc : SDoc) (plan : List (Nat × List String))
    (h : get_layer_structure doc = .ok plan) :
    plan.map Prod.fst = specGroupIdx 0 (slidesOf doc)
    ∧ List.Pairwise (· ≤ ·) (plan.map Prod.fst) := by
  unfold get_layer_structure at h
  cases h1 : processSecs (findMasterText doc) doc.layers 0 with
  | error e => rw [h1] at h; simp at h
  | ok p =>
    obtain ⟨frames, n'⟩ := p
    rw [h1] at h
    simp only [except_map_ok, Except.ok.injEq] at h
    subst h
    obtain ⟨-, hb⟩ := processSecs_spec (findMasterText doc) doc.layers 0 n' frames h1
    refine ⟨hb, ?_⟩
    rw [hb]
    exact (specGroupIdx_sorted (doc.layers.flatMap SLayer.subs) 0).1

/-- The document refuting C1 as stated: a single top-level group `G`
containing two childless slides `S1`, `S2`. -/
def c1doc : SDoc :=
  ⟨[.mk "G" [] [] false [.mk "S1" [] [] false [], .mk "S2" [] [] false []]], true⟩

/-- C1 counterexample: `c1doc` has exactly one top-level group, so under
the claim both plan entries would carry groupIndex 1 (the group's 1-based
position); the code instead numbers them 1 and 2, one per slide. -/
theorem plan_groupIndex_counterexample :
    c1doc.layers.length = 1
    ∧ (get_layer_structure c1doc).map (fun pl => pl.map Prod.fst) = .ok [1, 2]
    ∧ (1 : Nat) ≠ 2 := by
  refine ⟨rfl, rfl, by omega⟩

/-- Witness document for C1: two groups, the first with two slides (the
second of which has two build-up sublayers), the second group with one
slide. -/
def c1wdoc : SDoc :=
  ⟨[.mk "G1" [] [] false
      [.mk "S1" [] [] false [],
       .mk "S2" [] [] false [.mk "A" [] [] false [], .mk "B" [] [] false []]],
    .mk "G2" [] [] false [.mk "S3" [] [] false []]], true⟩

/-- C1 witness: on `c1wdoc` the plan's groupIndex sequence is
`[1, 2, 2, 3]` — one index per slide, shared by build-up frames,
non-decreasing. -/
theorem plan_groupIndex_witness :
    ([(1, ["G1", "S1"]), (2, ["G1", "S2", "A"]), (2, ["G1", "S2", "A", "B"]),
      (3, ["G2", "S3"])] : List (Nat × List String)).map Prod.fst
        = specGroupIdx 0 (slidesOf c1wdoc)
    ∧ List.Pairwise (· ≤ ·)
        (([(1, ["G1", "S1"]), (2, ["G1", "S2", "A"]), (2, ["G1", "S2", "A", "B"]),
          (3, ["G2", "S3"])] : List (Nat × List String)).map Prod.fst) :=
  plan_groupIndex c1wdoc _ rfl

end Inkslides

namespace Inkslides

/-! ## C7 — frame count and build-up structure -/

/-- A directive line that can only append: `None` (skipped) or a non-empty
text not starting with `-`. -/
def lineAppendB (o : Option String) : Bool :=
  match o with
  | none => true
  | some s =>
    match s.data.head? with
    | some c => !(c = '-')
    | none => false

theorem applyImportLines_appends (lines : List (Option String)) :
    ∀ (cur : List String), lines.all lineAppendB = true →
      ∃ adds, applyImportLines lines cur = .ok (cur ++ adds) := by
  induction lines with
  | nil => intro cur _; exact ⟨[], by simp [applyImportLines]⟩
  | cons o rest ih =>
    intro cur hall
    simp only [List.all_cons, Bool.and_eq_true] at hall
    obtain ⟨ho, hrest⟩ := hall
    cases o with
    | none =>
      obtain ⟨adds, ha⟩ := ih cur hrest
      exact ⟨adds, by simpa [applyImportLines] using ha⟩
    | some s =>
      simp only [lineAppendB] at ho
      cases hh : s.data.head? with
      | none => rw [hh] at ho; simp at ho
      | some c =>
        rw [hh] at ho
        simp only [Bool.not_eq_eq_eq_not, Bool.not_true, decide_eq_false_iff_not] at ho
        obtain ⟨adds, ha⟩ := ih (cur ++ [stripStr s]) hrest
        refine ⟨stripStr s :: adds, ?_⟩
        simp only [applyImportLines, hh, if_neg ho, ha]
        simp

theorem add_imported_layers_appends (l : SLayer) (cur : List String)
    (h : (importLinesOf l).all lineAppendB = true) :
    ∃ adds, add_imported_layers l cur = .ok (cur ++ adds) := by
  unfold importLinesOf at h
  cases hf : l.texts.find? (isMarkedText "#import#") with
  | none => exact ⟨[], by simp [add_imported_layers, hf]⟩
  | some t =>
    rw [hf] at h
    simp only [] at h
    by_cases hl : t.tspans.length > 0
    · have heq : add_imported_layers l cur = applyImportLines (t.tspans.drop 1) cur := by
        simp [add_imported_layers, hf, hl]
      rw [heq]
      rw [if_pos hl] at h
      exact applyImportLines_appends _ cur h
    · exact ⟨[], by simp [add_imported_layers, hf, hl]⟩

theorem add_master_layers_appends (m : Option TextEl) (cur : List String) :
    ∃ adds, add_master_layers m cur = cur ++ adds := by
  cases m with
  | none => exact ⟨[], by simp [add_master_layers]⟩
  | some t =>
    by_cases hl : t.tspans.length > 0
    · exact ⟨(t.tspans.drop 1).filterMap (fun o => o.map stripStr),
        by simp [add_master_layers, hl]⟩
    · exact ⟨[], by simp [add_master_layers, hl]⟩

theorem processSublayers_buildup (master : Option TextEl) (num : Nat) :
    ∀ (subs : List SLayer) (cur : List String) (frames : List (Nat × List String))
      (pre : List String),
      processSublayers master num cur subs = .ok frames →
      (subs.all fun sub => (importLinesOf sub).all lineAppendB) = true →
      List.Sublist pre cur →
      ∀ k (hk : k < frames.length),
        List.Sublist (pre ++ ((subs.take (k + 1)).map SLayer.label)) (frames.get ⟨k, hk⟩).2 := by
  intro subs
  induction subs with
  | nil =>
    intro cur frames pre h _ _ k hk
    simp [processSublayers] at h
    subst h
    simp at hk
  | cons sub rest ih =>
    intro cur frames pre h hall hpre k hk
    simp only [List.all_cons, Bool.and_eq_true] at hall
    obtain ⟨hsub, hrest⟩ := hall
    simp only [processSublayers] at h
    cases h1 : add_imported_layers sub (cur ++ [sub.label]) with
    | error e => rw [h1] at h; simp at h
    | ok cur' =>
      rw [h1] at h
      simp only [except_bind_ok] at h
      cases h2 : processSublayers master num cur' rest with
      | error e => rw [h2] at h; simp at h
      | ok fr =>
        rw [h2] at h
        simp only [except_bind_ok, Except.ok.injEq] at h
        subst h
        obtain ⟨adds, hadds⟩ := add_imported_layers_appends sub (cur ++ [sub.label]) hsub
        rw [h1] at hadds
        have hcur' : cur' = (cur ++ [sub.label]) ++ adds := by
          simpa using hadds
        have hbase : List.Sublist (pre ++ [sub.label]) cur' := by
          rw [hcur']
          exact (hpre.append (List.Sublist.refl [sub.label])).trans
            (List.sublist_append_left _ _)
        cases k with
        | zero =>
          simpa using hbase
        | succ k' =>
          have hk' : k' < fr.length := by simpa using hk
          have := ih cur' fr (pre ++ [sub.label]) h2 hrest hbase k' hk'
          simp only [List.take_succ_cons, List.map_cons]
          rw [show pre ++ (sub.label :: (rest.take (k' + 1)).map SLayer.label)
              = (pre ++ [sub.label]) ++ (rest.take (k' + 1)).map SLayer.label by simp]
          simpa using this

theorem processSlides_decomp (master : Option TextEl) (secLabel : String) :
    ∀ (slides : List SLayer) (n n' : Nat) (frames : List (Nat × List String)),
      processSlides master secLabel slides n = .ok (frames, n') →
      ∀ slide ∈ slides, ∃ num fr planPre planSuf,
        processSlide master secLabel num slide = .ok fr
        ∧ frames = planPre ++ fr ++ planSuf := by
  intro slides
  induction slides with
  | nil => intro n n' frames _ slide hmem; simp at hmem
  | cons s rest ih =>
    intro n n' frames h slide hmem
    simp only [processSlides] at h
    cases h1 : processSlide master secLabel (n + 1) s with
    | error e => rw [h1] at h; simp at h
    | ok fr =>
      rw [h1] at h
      simp only [except_bind_ok] at h
      cases h2 : processSlides master secLabel rest (n + 1) with
      | error e => rw [h2] at h; simp at h
      | ok p =>
        obtain ⟨fr', n''⟩ := p
        rw [h2] at h
        simp only [except_bind_ok, Except.ok.injEq, Prod.mk.injEq] at h
        obtain ⟨hfr, -⟩ := h
        rcases List.mem_cons.mp hmem with rfl | hmem'
        · exact ⟨n + 1, fr, [], fr', h1, by simp [← hfr]⟩
        · obtain ⟨num, fr0, pp, ps, ha, hb⟩ := ih (n + 1) n'' fr' h2 slide hmem'
          exact ⟨num, fr0, fr ++ pp, ps, ha, by simp [← hfr, hb]⟩

theorem processSecs_decomp (master : Option TextEl) :
    ∀ (secs : List SLayer) (n n' : Nat) (frames : List (Nat × List String)),
      processSecs master secs n = .ok (frames, n') →
      ∀ sec ∈ secs, ∀ slide ∈ sec.subs, ∃ num fr planPre planSuf,
        processSlide master sec.label num slide = .ok fr
        ∧ frames = planPre ++ fr ++ planSuf := by
  intro secs
  induction secs with
  | nil => intro n n' frames _ sec hmem; simp at hmem
  | cons s rest ih =>
    intro n n' frames h sec hmem slide hsl
    simp only [processSecs] at h
    cases h1 : processSlides master s.label s.subs n with
    | error e => rw [h1] at h; simp at h
    | ok p =>
      obtain ⟨fr, n1⟩ := p
      rw [h1] at h
      simp only [except_bind_ok] at h
      cases h2 : processSecs master rest n1 with
      | error e => rw [h2] at h; simp at h
      | ok q =>
        obtain ⟨fr', n2⟩ := q
        rw [h2] at h
        simp only [except_bind_ok, Except.ok.injEq, Prod.mk.injEq] at h
        obtain ⟨hfr, -⟩ := h
        rcases List.mem_cons.mp hmem with rfl | hmem'
        · obtain ⟨num, fr0, pp, ps, ha, hb⟩ := processSlides_decomp master sec.label
            sec.subs n n1 fr h1 slide hsl
          exact ⟨num, fr0, pp, ps ++ fr', ha, by simp [← hfr, hb]⟩
        · obtain ⟨num, fr0, pp, ps, ha, hb⟩ := ih n1 n2 fr' h2 sec hmem' slide hsl
          exact ⟨num, fr0, fr ++ pp, ps, ha, by simp [← hfr, hb]⟩

theorem specGroupIdx_length :
    ∀ (l : List SLayer) (n : Nat),
      (specGroupIdx n l).length = (l.map frameCount).sum := by
  intro l
  induction l with
  | nil => intro n; simp [specGroupIdx]
  | cons s rest ih => intro n; simp [specGroupIdx, ih (n + 1)]

end Inkslides

namespace Inkslides

/-- C7 (amended): the number of plan entries equals the sum over all slides
of (1 if the slide has no sub-layers, else the number of sub-layers);
and for a slide with sub-layers whose `#import#` directive lines (on the
slide and its sub-layers) contain no `-` removal lines, the frames emitted
for that slide appear contiguously in the plan, one per sub-layer, and the
k-th of them contains the enclosing group's layer, the slide's layer, and
the first k sub-layers, in order (as a subsequence of its layer list).
The no-removal proviso is forced: a removal line can delete the group's
or slide's name from the list (see the counterexample). -/
theorem plan_frame_count_and_buildup (doc : SDoc) (plan : List (Nat × List String))
    (h : get_layer_structure doc = .ok plan) :
    plan.length = ((slidesOf doc).map frameCount).sum
    ∧ ∀ sec ∈ doc.layers, ∀ slide ∈ sec.subs,
        ((importLinesOf slide).all lineAppendB
          && slide.subs.all fun sub => (importLinesOf sub).all lineAppendB) = true →
        slide.subs ≠ [] →
        ∃ num frames planPre planSuf,
          processSlide (findMasterText doc) sec.label num slide = .ok frames
          ∧ plan = planPre ++ frames ++ planSuf
          ∧ frames.length = slide.subs.length
          ∧ ∀ k (hk : k < frames.length),
              List.Sublist
                ([sec.label, slide.label] ++ ((slide.subs.take (k + 1)).map SLayer.label))
                ((frames.get ⟨k, hk⟩).2) := by
  unfold get_layer_structure at h
  cases h1 : processSecs (findMasterText doc) doc.layers 0 with
  | error e => rw [h1] at h; simp at h
  | ok p =>
    obtain ⟨frames0, n'⟩ := p
    rw [h1] at h
    simp only [except_map_ok, Except.ok.injEq] at h
    subst h
    constructor
    · have hb := (processSecs_spec (findMasterText doc) doc.layers 0 n' frames0 h1).2
      have := congrArg List.length hb
      simpa [slidesOf, specGroupIdx_length] using this
    · intro sec hsec slide hslide hclean hsubs
      simp only [Bool.and_eq_true] at hclean
      obtain ⟨hclean1, hclean2⟩ := hclean
      obtain ⟨num, fr, pp, ps, ha, hb⟩ :=
        processSecs_decomp (findMasterText doc) doc.layers 0 n' frames0 h1 sec hsec slide hslide
      refine ⟨num, fr, pp, ps, ha, hb, ?_, ?_⟩
      · have := processSlide_map_fst (findMasterText doc) sec.label num slide fr ha
        have hlen := congrArg List.length this
        simp only [List.length_map, List.length_replicate] at hlen
        rw [hlen]
        unfold frameCount
        cases hs : slide.subs with
        | nil => exact absurd hs hsubs
        | cons a b => simp
      · -- dissect processSlide to reach the sublayer loop
        simp only [processSlide] at ha
        cases h2 : add_imported_layers slide
            (add_master_layers (findMasterText doc) [sec.label, slide.label]) with
        | error e => rw [h2] at ha; simp at ha
        | ok cur =>
          rw [h2] at ha
          simp only [except_bind_ok] at ha
          obtain ⟨adds1, hm⟩ :=
            add_master_layers_appends (findMasterText doc) [sec.label, slide.label]
          obtain ⟨adds2, hi⟩ := add_imported_layers_appends slide
            (add_master_layers (findMasterText doc) [sec.label, slide.label]) hclean1
          rw [h2] at hi
          have hcur : cur = [sec.label, slide.label] ++ (adds1 ++ adds2) := by
            have : cur = add_master_layers (findMasterText doc) [sec.label, slide.label]
                ++ adds2 := by simpa using hi
            rw [this, hm, List.append_assoc]
          have hbase : List.Sublist [sec.label, slide.label] cur := by
            rw [hcur]
            exact List.sublist_append_left _ _
          cases hs : slide.subs with
          | nil => exact absurd hs hsubs
          | cons a b =>
            rw [hs] at ha
            intro k hk
            have := processSublayers_buildup (findMasterText doc) num (a :: b) cur fr
              [sec.label, slide.label] ha (by rw [← hs]; exact hclean2) hbase k hk
            exact this

/-- The document refuting the unconditional claim: slide `S` carries an
`#import#` directive whose line `-G` removes the enclosing group's layer
from the accumulated list before the sublayer frame is emitted. -/
def c7doc : SDoc :=
  ⟨[.mk "G" [] [] false
      [.mk "S" [] [⟨[some "#import#", some "-G"]⟩] false
        [.mk "A" [] [] false []]]], true⟩

/-- C7 counterexample: on `c7doc` the single emitted frame's layer list is
`["S", "A"]`, which does not contain the enclosing top-level group's layer
`G`, contradicting the claim that frame k's list contains the group's
layer. -/
theorem plan_buildup_counterexample :
    get_layer_structure c7doc = .ok [(1, ["S", "A"])]
    ∧ c7doc.layers.map SLayer.label = ["G"]
    ∧ "G" ∉ ["S", "A"] := by
  refine ⟨rfl, rfl, by decide⟩

def c7slide2 : SLayer :=
  .mk "S" [] [] false [.mk "A" [] [] false [], .mk "B" [] [] false []]

def c7sec : SLayer := .mk "G" [] [] false [c7slide2]

def c7wdoc : SDoc := ⟨[c7sec], true⟩

/-- C7 witness: one group, one slide with two sub-layers and no directives;
the plan has `1 + 0 = 2` frames and the build-up frames contain
`G, S, A` and `G, S, A, B` in order. -/
theorem plan_frame_count_and_buildup_witness :
    ([(1, ["G", "S", "A"]), (1, ["G", "S", "A", "B"])] : List (Nat × List String)).length
        = ((slidesOf c7wdoc).map frameCount).sum
    ∧ ∃ num frames planPre planSuf,
        processSlide (findMasterText c7wdoc) c7sec.label num c7slide2 = .ok frames
        ∧ [(1, ["G", "S", "A"]), (1, ["G", "S", "A", "B"])] = planPre ++ frames ++ planSuf
        ∧ frames.length = c7slide2.subs.length
        ∧ ∀ k (hk : k < frames.length),
            List.Sublist
              ([c7sec.label, c7slide2.label] ++ ((c7slide2.subs.take (k + 1)).map SLayer.label))
              ((frames.get ⟨k, hk⟩).2) := by
  have h := plan_frame_count_and_buildup c7wdoc
    [(1, ["G", "S", "A"]), (1, ["G", "S", "A", "B"])] rfl
  refine ⟨h.1, ?_⟩
  exact h.2 c7sec (by simp [c7wdoc]) c7slide2 (by simp [c7sec, c7slide2, SLayer.subs]) (by decide)
    (by simp [c7slide2, SLayer.subs])

end Inkslides

namespace Inkslides

/-! ## Style-edit lemmas for C2 and C9

`styleIns k v` touches only the addressed node's style attribute, so a
`docModify` at path `p` changes the style read at `q` exactly when
`q = p`. -/

theorem styleAt_modify_styleIns (k v : String) :
    (∀ (t : SLayer) (p q : List Nat),
      styleAtL q (modifyL p (styleIns k v) t)
        = if q = p then (styleAtL q t).map (dinsert k v) else styleAtL q t)
    ∧ (∀ (ts : List SLayer) (i : Nat) (rest : List Nat) (j : Nat) (s : List Nat),
      styleAtLs j s (modifyLs i rest (styleIns k v) ts)
        = if j = i ∧ s = rest then (styleAtLs j s ts).map (dinsert k v)
          else styleAtLs j s ts) := by
  have key := SLayer.indPair
    (fun t => ∀ (p q : List Nat),
      styleAtL q (modifyL p (styleIns k v) t)
        = if q = p then (styleAtL q t).map (dinsert k v) else styleAtL q t)
    (fun ts => ∀ (i : Nat) (rest : List Nat) (j : Nat) (s : List Nat),
      styleAtLs j s (modifyLs i rest (styleIns k v) ts)
        = if j = i ∧ s = rest then (styleAtLs j s ts).map (dinsert k v)
          else styleAtLs j s ts)
    (by
      intro lb st tx us subs ih p q
      cases p with
      | nil =>
        cases q with
        | nil => simp [modifyL, styleIns, styleAtL]
        | cons j s => simp [modifyL, styleIns, styleAtL]
      | cons i rest =>
        cases q with
        | nil => simp [modifyL, styleAtL]
        | cons j s =>
          simp only [modifyL, styleAtL, ih i rest j s]
          by_cases h : j = i ∧ s = rest
          · obtain ⟨h1, h2⟩ := h
            subst h1 h2
            simp
          · rw [if_neg h, if_neg (by simpa [List.cons.injEq] using h)])
    (by
      intro i rest j s
      simp [modifyLs, styleAtLs])
    (by
      intro x xs ihx ihxs i rest j s
      cases i with
      | zero =>
        cases j with
        | zero =>
          simp only [modifyLs, styleAtLs, ihx rest s]
          by_cases h : s = rest
          · subst h; simp
          · simp [h]
        | succ j' => simp [modifyLs, styleAtLs]
      | succ i' =>
        cases j with
        | zero => simp [modifyLs, styleAtLs]
        | succ j' =>
          simp only [modifyLs, styleAtLs, ihxs i' rest j' s]
          by_cases h : j' = i' ∧ s = rest
          · obtain ⟨h1, h2⟩ := h
            subst h1 h2
            simp
          · rw [if_neg h, if_neg (by simpa [Nat.succ_inj] using h)])
  exact ⟨key.1, fun ts i rest j s => key.2 ts i rest j s⟩

theorem styleAtDoc_docModify (k v : String) (p q : List Nat) (d : SDoc) :
    styleAtDoc q (docModify p (styleIns k v) d)
      = if q = p then (styleAtDoc q d).map (dinsert k v) else styleAtDoc q d := by
  cases p with
  | nil =>
    cases q with
    | nil => simp [docModify, styleAtDoc]
    | cons j s => simp [docModify, styleAtDoc]
  | cons i rest =>
    cases q with
    | nil => simp [docModify, styleAtDoc]
    | cons j s =>
      simp only [docModify, styleAtDoc, (styleAt_modify_styleIns k v).2 d.layers i rest j s]
      by_cases h : j = i ∧ s = rest
      · obtain ⟨h1, h2⟩ := h
        subst h1 h2
        simp
      · rw [if_neg h, if_neg (by simpa [List.cons.injEq] using h)]

/-- Folding style-insertions over a list of paths: a path in the list gets
the key set (idempotently), any other path is untouched. -/
theorem styleAtDoc_fold_styleIns (k v : String) :
    ∀ (ps : List (List Nat)) (q : List Nat) (d : SDoc),
      (q ∉ ps →
        styleAtDoc q (ps.foldl (fun dd p => docModify p (styleIns k v) dd) d)
          = styleAtDoc q d)
      ∧ (q ∈ ps →
        styleAtDoc q (ps.foldl (fun dd p => docModify p (styleIns k v) dd) d)
          = (styleAtDoc q d).map (dinsert k v)) := by
  intro ps
  induction ps with
  | nil => intro q d; simp
  | cons p rest ih =>
    intro q d
    constructor
    · intro hq
      have h1 : q ≠ p := fun h => hq (h ▸ List.mem_cons_self p rest)
      have h2 : q ∉ rest := fun h => hq (List.mem_cons_of_mem _ h)
      simp only [List.foldl_cons]
      rw [(ih q _).1 h2, styleAtDoc_docModify, if_neg h1]
    · intro hq
      simp only [List.foldl_cons]
      rcases List.mem_cons.mp hq with rfl | hq'
      · by_cases h2 : q ∈ rest
        · rw [(ih q _).2 h2, styleAtDoc_docModify, if_pos rfl]
          cases styleAtDoc q d with
          | none => simp
          | some st => simp [dinsert_dinsert_self]
        · rw [(ih q _).1 h2, styleAtDoc_docModify, if_pos rfl]
      · rw [(ih q _).2 hq', styleAtDoc_docModify]
        by_cases h1 : q = p
        · subst h1
          rw [if_pos rfl]
          cases styleAtDoc q d with
          | none => simp
          | some st => simp [dinsert_dinsert_self]
        · rw [if_neg h1]

end Inkslides

namespace Inkslides

/-! ## C2 — what `show_layer` actually does -/

/-- Pure path resolution of the frame's layer names against the
`get_all_layers` dict, failing at the first unknown name exactly as the
show loop does. -/
def resolvePaths (dict : List (String × List Nat)) : List String → Except MatError (List (List Nat))
  | [] => .ok []
  | n :: ns =>
    match dlookup n dict with
    | none => .error (.keyError n)
    | some p => (resolvePaths dict ns).map (p :: ·)

/-- Applying `show_layer` at each resolved path in order. -/
def foldShow (ps : List (List Nat)) (d : SDoc) : SDoc :=
  ps.foldl (fun dd p => docModify p show_layer dd) d

theorem showLoop_char (root : SDoc) (dict : List (String × List Nat)) :
    ∀ (names : List String) (d : SDoc) (b : Bool),
      showLoop root dict names (d, b)
        = (resolvePaths dict names).map
            (fun ps => (foldShow ps d, b && !(ps.any fun p => hasUseAtDoc p root))) := by
  intro names
  induction names with
  | nil => intro d b; simp [showLoop, resolvePaths, foldShow]
  | cons n ns ih =>
    intro d b
    simp only [showLoop, resolvePaths]
    cases hl : dlookup n dict with
    | none => simp
    | some p =>
      simp only []
      rw [ih]
      cases hr : resolvePaths dict ns with
      | error e => simp
      | ok ps =>
        simp only [except_map_ok, Except.ok.injEq, Prod.mk.injEq]
        constructor
        · rfl
        · simp [Bool.not_or, Bool.and_assoc]

theorem resolvePaths_mem_of_lookup (dict : List (String × List Nat)) :
    ∀ (names : List String) (ps : List (List Nat)),
      resolvePaths dict names = .ok ps →
      ∀ n ∈ names, ∀ p, dlookup n dict = some p → p ∈ ps := by
  intro names
  induction names with
  | nil => intro ps _ n hmem; simp at hmem
  | cons m ns ih =>
    intro ps h n hmem p hlk
    simp only [resolvePaths] at h
    cases hm : dlookup m dict with
    | none => rw [hm] at h; simp at h
    | some pm =>
      rw [hm] at h
      cases hr : resolvePaths dict ns with
      | error e => rw [hr] at h; simp at h
      | ok ps' =>
        rw [hr] at h
        simp only [except_map_ok, Except.ok.injEq] at h
        subst h
        rcases List.mem_cons.mp hmem with rfl | hmem'
        · rw [hm] at hlk
          simp only [Option.some.injEq] at hlk
          subst hlk
          exact List.mem_cons_self _ _
        · exact List.mem_cons_of_mem _ (ih ps' hr n hmem' p hlk)

theorem resolvePaths_mem_inv (dict : List (String × List Nat)) :
    ∀ (names : List String) (ps : List (List Nat)),
      resolvePaths dict names = .ok ps →
      ∀ p ∈ ps, ∃ n ∈ names, dlookup n dict = some p := by
  intro names
  induction names with
  | nil =>
    intro ps h p hp
    simp [resolvePaths] at h
    subst h
    simp at hp
  | cons m ns ih =>
    intro ps h p hp
    simp only [resolvePaths] at h
    cases hm : dlookup m dict with
    | none => rw [hm] at h; simp at h
    | some pm =>
      rw [hm] at h
      cases hr : resolvePaths dict ns with
      | error e => rw [hr] at h; simp at h
      | ok ps' =>
        rw [hr] at h
        simp only [except_map_ok, Except.ok.injEq] at h
        subst h
        rcases List.mem_cons.mp hp with rfl | hp'
        · exact ⟨m, List.mem_cons_self _ _, hm⟩
        · obtain ⟨n, hn, hlk⟩ := ih ps' hr p hp'
          exact ⟨n, List.mem_cons_of_mem _ hn, hlk⟩

/-- The value of one style key at a node: the parsed `style` attribute's
entry for that key. -/
def styleKeyAt (k : String) (p : List Nat) (d : SDoc) : Option String :=
  (styleAtDoc p d).bind (dlookup k)

/-- The non-empty path prefixes of a path: the node itself and every
enclosing ancestor layer. -/
def prefixesNN : List Nat → List (List Nat)
  | [] => []
  | i :: rest => [i] :: (prefixesNN rest).map (i :: ·)

/-- A layer is effectively visible in the rendered SVG only if neither it
nor any enclosing ancestor layer has `display:none`. -/
def effVisible (d : SDoc) (p : List Nat) : Bool :=
  (prefixesNN p).all fun q => !(styleKeyAt "display" q d == some "none")

/-- C2 (amended): for every name in the entry's layer list, the show loop
(`show_layer` applied per name) sets that layer node's `display` style to
`inline` and touches nothing else: it does NOT set any opacity (the claim's
"with the given opacity, default 1.0" describes the legacy single-file
`show_layer`, whose opacity line is commented out in the packaged
`utils.show_layer`), and it does NOT mark ancestor layers visible — any
node no listed name resolves to keeps its style unchanged, so a nested
layer whose ancestors are not themselves in the layer list stays
effectively invisible through an ancestor's `display:none`. -/
theorem show_layer_semantics (root d0 d : SDoc) (b0 b : Bool) (names : List String)
    (hshow : showLoop root (get_all_layers root) names (d0, b0) = .ok (d, b)) :
    (∀ n ∈ names, ∀ p, dlookup n (get_all_layers root) = some p →
       ((styleAtDoc p d0).isSome → styleKeyAt "display" p d = some "inline")
       ∧ styleKeyAt "opacity" p d = styleKeyAt "opacity" p d0)
    ∧ (∀ q, (∀ n ∈ names, dlookup n (get_all_layers root) ≠ some q) →
        styleAtDoc q d = styleAtDoc q d0)
    ∧ (∀ p q, q ∈ prefixesNN p →
        (∀ n ∈ names, dlookup n (get_all_layers root) ≠ some q) →
        styleKeyAt "display" q d0 = some "none" → effVisible d p = false) := by
  rw [showLoop_char] at hshow
  cases hr : resolvePaths (get_all_layers root) names with
  | error e => rw [hr] at hshow; simp at hshow
  | ok ps =>
    rw [hr] at hshow
    simp only [except_map_ok, Except.ok.injEq, Prod.mk.injEq] at hshow
    obtain ⟨hd, -⟩ := hshow
    have hfold : d = ps.foldl (fun dd p => docModify p (styleIns "display" "inline") dd) d0 := by
      rw [← hd]; rfl
    have huntouched : ∀ q, (∀ n ∈ names, dlookup n (get_all_layers root) ≠ some q) →
        styleAtDoc q d = styleAtDoc q d0 := by
      intro q hq
      have hqps : q ∉ ps := by
        intro hmem
        obtain ⟨n, hn, hlk⟩ := resolvePaths_mem_inv _ names ps hr q hmem
        exact hq n hn hlk
      rw [hfold]
      exact (styleAtDoc_fold_styleIns "display" "inline" ps q d0).1 hqps
    refine ⟨?_, huntouched, ?_⟩
    · intro n hn p hlk
      have hp : p ∈ ps := resolvePaths_mem_of_lookup _ names ps hr n hn p hlk
      have hst : styleAtDoc p d = (styleAtDoc p d0).map (dinsert "display" "inline") := by
        rw [hfold]
        exact (styleAtDoc_fold_styleIns "display" "inline" ps p d0).2 hp
      constructor
      · intro hsome
        obtain ⟨st, hsteq⟩ := Option.isSome_iff_exists.mp hsome
        unfold styleKeyAt
        rw [hst, hsteq]
        simp [dlookup_dinsert_self]
      · unfold styleKeyAt
        rw [hst]
        cases styleAtDoc p d0 with
        | none => simp
        | some st => simp [dlookup_dinsert_ne "display" "opacity" _ _ (by decide)]
    · intro p q hqpre hq hnone
      have h2 := huntouched q hq
      have : styleKeyAt "display" q d = some "none" := by
        unfold styleKeyAt
        rw [h2]
        exact hnone
      unfold effVisible
      rw [List.all_eq_false]
      exact ⟨q, hqpre, by simp [this]⟩

/-- The document for C2's counterexample and witness: layer `outer`
containing nested layer `inner`, both hidden by the global
`hide_all_layers` pass. -/
def c2doc : SDoc := ⟨[.mk "outer" [] [] false [.mk "inner" [] [] false []]], true⟩

def c2root : SDoc := hide_all_layers c2doc

/-- C2 counterexample: materializing a frame whose layer list is
`["inner"]` leaves `inner` without any opacity entry (the claim says
opacity 1.0 is set) and leaves its ancestor `outer` at `display:none` (the
claim says every ancestor is marked visible), so `inner` stays effectively
invisible. -/
theorem show_layer_counterexample :
    showLoop c2root (get_all_layers c2root) ["inner"] (c2root, true)
      = .ok (⟨[.mk "outer" [("display", "none")] [] false
          [.mk "inner" [("display", "inline")] [] false []]], true⟩, true)
    ∧ styleKeyAt "opacity" [0, 0]
        ⟨[.mk "outer" [("display", "none")] [] false
          [.mk "inner" [("display", "inline")] [] false []]], true⟩ = none
    ∧ styleKeyAt "display" [0]
        ⟨[.mk "outer" [("display", "none")] [] false
          [.mk "inner" [("display", "inline")] [] false []]], true⟩ = some "none"
    ∧ effVisible
        ⟨[.mk "outer" [("display", "none")] [] false
          [.mk "inner" [("display", "inline")] [] false []]], true⟩ [0, 0] = false := by
  refine ⟨rfl, rfl, rfl, rfl⟩

/-- C2 witness: on `c2root` with layer list `["inner"]`, the amended
theorem's conclusions hold. -/
theorem show_layer_semantics_witness :
    (∀ n ∈ ["inner"], ∀ p, dlookup n (get_all_layers c2root) = some p →
       ((styleAtDoc p c2root).isSome →
          styleKeyAt "display" p
            ⟨[.mk "outer" [("display", "none")] [] false
              [.mk "inner" [("display", "inline")] [] false []]], true⟩ = some "inline")
       ∧ styleKeyAt "opacity" p
            ⟨[.mk "outer" [("display", "none")] [] false
              [.mk "inner" [("display", "inline")] [] false []]], true⟩
          = styleKeyAt "opacity" p c2root)
    ∧ (∀ q, (∀ n ∈ ["inner"], dlookup n (get_all_layers c2root) ≠ some q) →
        styleAtDoc q
            ⟨[.mk "outer" [("display", "none")] [] false
              [.mk "inner" [("display", "inline")] [] false []]], true⟩
          = styleAtDoc q c2root)
    ∧ (∀ p q, q ∈ prefixesNN p →
        (∀ n ∈ ["inner"], dlookup n (get_all_layers c2root) ≠ some q) →
        styleKeyAt "display" q c2root = some "none" →
        effVisible
            ⟨[.mk "outer" [("display", "none")] [] false
              [.mk "inner" [("display", "inline")] [] false []]], true⟩ p = false) :=
  show_layer_semantics c2root c2root _ true true ["inner"] rfl

end Inkslides

namespace Inkslides

/-! ## C9 — duplicate layer names are idempotent -/

theorem modify_styleIns_comm (k v : String) :
    (∀ (t : SLayer) (p q : List Nat),
      modifyL p (styleIns k v) (modifyL q (styleIns k v) t)
        = modifyL q (styleIns k v) (modifyL p (styleIns k v) t))
    ∧ (∀ (ts : List SLayer) (i : Nat) (r : List Nat) (j : Nat) (s : List Nat),
      modifyLs i r (styleIns k v) (modifyLs j s (styleIns k v) ts)
        = modifyLs j s (styleIns k v) (modifyLs i r (styleIns k v) ts)) := by
  have key := SLayer.indPair
    (fun t => ∀ (p q : List Nat),
      modifyL p (styleIns k v) (modifyL q (styleIns k v) t)
        = modifyL q (styleIns k v) (modifyL p (styleIns k v) t))
    (fun ts => ∀ (i : Nat) (r : List Nat) (j : Nat) (s : List Nat),
      modifyLs i r (styleIns k v) (modifyLs j s (styleIns k v) ts)
        = modifyLs j s (styleIns k v) (modifyLs i r (styleIns k v) ts))
    (by
      intro lb st tx us subs ih p q
      cases p with
      | nil =>
        cases q with
        | nil => rfl
        | cons j s => simp [modifyL, styleIns]
      | cons i r =>
        cases q with
        | nil => simp [modifyL, styleIns]
        | cons j s => simp [modifyL, ih i r j s])
    (by intro i r j s; rfl)
    (by
      intro x xs ihx ihxs i r j s
      cases i with
      | zero =>
        cases j with
        | zero => simp [modifyLs, ihx r s]
        | succ j' => simp [modifyLs]
      | succ i' =>
        cases j with
        | zero => simp [modifyLs]
        | succ j' => simp [modifyLs, ihxs i' r j' s])
  exact key

theorem modify_styleIns_idem (k v : String) :
    (∀ (t : SLayer) (p : List Nat),
      modifyL p (styleIns k v) (modifyL p (styleIns k v) t) = modifyL p (styleIns k v) t)
    ∧ (∀ (ts : List SLayer) (i : Nat) (r : List Nat),
      modifyLs i r (styleIns k v) (modifyLs i r (styleIns k v) ts)
        = modifyLs i r (styleIns k v) ts) := by
  have key := SLayer.indPair
    (fun t => ∀ (p : List Nat),
      modifyL p (styleIns k v) (modifyL p (styleIns k v) t) = modifyL p (styleIns k v) t)
    (fun ts => ∀ (i : Nat) (r : List Nat),
      modifyLs i r (styleIns k v) (modifyLs i r (styleIns k v) ts)
        = modifyLs i r (styleIns k v) ts)
    (by
      intro lb st tx us subs ih p
      cases p with
      | nil => simp [modifyL, styleIns, dinsert_dinsert_self]
      | cons i r => simp [modifyL, ih i r])
    (by intro i r; rfl)
    (by
      intro x xs ihx ihxs i r
      cases i with
      | zero => simp [modifyLs, ihx r]
      | succ i' => simp [modifyLs, ihxs i' r])
  exact key

theorem docModify_show_comm (p q : List Nat) (d : SDoc) :
    docModify p show_layer (docModify q show_layer d)
      = docModify q show_layer (docModify p show_layer d) := by
  cases p with
  | nil => rfl
  | cons i r =>
    cases q with
    | nil => rfl
    | cons j s =>
      simp [docModify, show_layer, (modify_styleIns_comm "display" "inline").2 d.layers i r j s]

theorem docModify_show_idem (p : List Nat) (d : SDoc) :
    docModify p show_layer (docModify p show_layer d) = docModify p show_layer d := by
  cases p with
  | nil => rfl
  | cons i r =>
    simp [docModify, show_layer, (modify_styleIns_idem "display" "inline").2 d.layers i r]

theorem foldShow_comm (L : List (List Nat)) :
    ∀ (p : List Nat) (d : SDoc),
      docModify p show_layer (foldShow L d) = foldShow L (docModify p show_layer d) := by
  induction L with
  | nil => intro p d; rfl
  | cons q rest ih =>
    intro p d
    simp only [foldShow, List.foldl_cons]
    rw [show (List.foldl (fun dd p => docModify p show_layer dd) (docModify q show_layer d) rest)
      = foldShow rest (docModify q show_layer d) from rfl]
    rw [ih p (docModify q show_layer d), docModify_show_comm]
    rfl

theorem foldShow_absorb (A : List (List Nat)) :
    ∀ (p : List Nat) (d : SDoc), p ∈ A →
      docModify p show_layer (foldShow A d) = foldShow A d := by
  induction A with
  | nil => intro p d h; simp at h
  | cons q rest ih =>
    intro p d hmem
    rcases List.mem_cons.mp hmem with rfl | hmem'
    · by_cases hq : p ∈ rest
      · simp only [foldShow, List.foldl_cons]
        exact ih p (docModify p show_layer d) hq
      · simp only [foldShow, List.foldl_cons]
        rw [show (List.foldl (fun dd p => docModify p show_layer dd)
            (docModify p show_layer d) rest)
          = foldShow rest (docModify p show_layer d) from rfl]
        rw [foldShow_comm, docModify_show_idem]
    · simp only [foldShow, List.foldl_cons]
      exact ih p (docModify q show_layer d) hmem'

theorem foldShow_append (A B : List (List Nat)) (d : SDoc) :
    foldShow (A ++ B) d = foldShow B (foldShow A d) := by
  simp [foldShow, List.foldl_append]

theorem foldShow_dup (A B : List (List Nat)) (p : List Nat) (d : SDoc) (h : p ∈ A) :
    foldShow (A ++ p :: B) d = foldShow (A ++ B) d := by
  rw [foldShow_append, foldShow_append]
  show foldShow B (docModify p show_layer (foldShow A d)) = _
  rw [foldShow_absorb A p d h]

theorem resolvePaths_append (dict : List (String × List Nat)) :
    ∀ (a b : List String),
      resolvePaths dict (a ++ b)
        = (resolvePaths dict a) >>= fun pa => (resolvePaths dict b).map (pa ++ ·) := by
  intro a
  induction a with
  | nil =>
    intro b
    simp only [List.nil_append, resolvePaths, except_bind_ok]
    cases resolvePaths dict b with
    | error e => rfl
    | ok ps => simp
  | cons n ns ih =>
    intro b
    simp only [List.cons_append, resolvePaths]
    cases dlookup n dict with
    | none => rfl
    | some p =>
      simp only [List.append_eq]
      rw [ih b]
      cases resolvePaths dict ns with
      | error e => rfl
      | ok pa =>
        cases resolvePaths dict b with
        | error e => rfl
        | ok pb => simp

/-- C9: materialization is idempotent in layer names — a frame whose layer
list shows the same name twice materializes to exactly the document (or
error) of the list with the second occurrence dropped: showing an
already-visible layer changes nothing, and the `do_delete` decision and all
later stages agree. -/
theorem materialize_dup_idempotent (root : SDoc) (slide_num frame_num : Nat)
    (l1 l2 l3 : List String) (x : String) :
    materializeFrame root slide_num frame_num (l1 ++ x :: (l2 ++ x :: l3))
      = materializeFrame root slide_num frame_num (l1 ++ x :: (l2 ++ l3)) := by
  unfold materializeFrame
  set dict := get_all_layers root with hdict
  have hloop :
      showLoop root dict (l1 ++ x :: (l2 ++ x :: l3)) (root, true)
        = showLoop root dict (l1 ++ x :: (l2 ++ l3)) (root, true) := by
    rw [showLoop_char, showLoop_char]
    have hsplit : ∀ (tl : List String),
        resolvePaths dict (l1 ++ x :: tl)
          = (resolvePaths dict l1) >>= fun pa =>
              (match dlookup x dict with
               | none => Except.error (MatError.keyError x)
               | some p => (resolvePaths dict tl).map (p :: ·)).map (pa ++ ·) := by
      intro tl
      rw [resolvePaths_append]
      rfl
    rw [hsplit, hsplit]
    cases h1 : resolvePaths dict l1 with
    | error e => rfl
    | ok P1 =>
      simp only [except_bind_ok]
      cases hx : dlookup x dict with
      | none => rfl
      | some p =>
        simp only []
        rw [resolvePaths_append dict l2 (x :: l3), resolvePaths_append dict l2 l3]
        cases h2 : resolvePaths dict l2 with
        | error e => rfl
        | ok P2 =>
          simp only [except_bind_ok]
          have hres : resolvePaths dict (x :: l3)
              = (resolvePaths dict l3).map (p :: ·) := by
            simp [resolvePaths, hx]
          rw [hres]
          cases h3 : resolvePaths dict l3 with
          | error e => rfl
          | ok P3 =>
            simp only [except_map_ok, Except.ok.injEq]
            have hmem : p ∈ P1 ++ p :: P2 := by
              simp
            congr 1
            · rw [show P1 ++ p :: (P2 ++ p :: P3) = (P1 ++ p :: P2) ++ p :: P3 by simp,
                show P1 ++ p :: (P2 ++ P3) = (P1 ++ p :: P2) ++ P3 by simp]
              exact foldShow_dup _ _ _ _ hmem
            · simp only [List.any_append, List.any_cons]
              cases hasUseAtDoc p root <;> simp
  rw [hloop]

end Inkslides

namespace Inkslides

/-! ## Filesystem and cache lemmas (C3, C8, C10) -/

@[simp] theorem except_mapError_ok {ε ε' α : Type} (a : α) (f : ε → ε') :
    (Except.ok a : Except ε α).mapError f = .ok a := rfl

@[simp] theorem except_mapError_err {ε ε' α : Type} (e : ε) (f : ε → ε') :
    (Except.error e : Except ε α).mapError f = .error (f e) := rfl

theorem fileBeq_iff (a b : FileData) : fileBeq a b = true ↔ a = b := by
  cases a <;> cases b <;>
    simp [fileBeq, docBeq_iff]

theorem fileBeq_refl (a : FileData) : fileBeq a a = true := (fileBeq_iff a a).mpr rfl

theorem insertFS_at (fs : FS) (p : String) (v : FileData) :
    insertFS fs p v p = some v := by simp [insertFS]

theorem insertFS_ne (fs : FS) (p q : String) (v : FileData) (h : q ≠ p) :
    insertFS fs p v q = fs q := by simp [insertFS, h]

theorem insertFS_self (fs : FS) (p : String) (v : FileData) (h : fs p = some v) :
    insertFS fs p v = fs := by
  funext q
  by_cases hq : q = p
  · subst hq; simp [insertFS, h]
  · simp [insertFS, hq]

theorem insertFS_isSome (fs : FS) (p q : String) (v : FileData) (h : (fs q).isSome) :
    (insertFS fs p v q).isSome := by
  by_cases hq : q = p
  · subst hq; simp [insertFS]
  · simpa [insertFS, hq] using h

/-- Structural facts about one `create_slides_svg` pass: lengths, the
`only_cached` flag, which paths it writes, filesystem monotonicity, and the
per-frame materialization/caching record. -/
theorem csl_main (root : SDoc) (tmp : String) :
    ∀ (content : List (Nat × List String)) (fn : Nat) (fs : FS)
      (files : List (String × Bool)) (fsE : FS) (oc : Bool),
      create_slides_svg root tmp content fn fs = .ok (files, fsE, oc) →
      files.length = content.length
      ∧ (oc = true ↔ ∀ f ∈ files, f.2 = true)
      ∧ (∀ q, q ∉ files.map Prod.fst → fsE q = fs q)
      ∧ (∀ q, (fs q).isSome → (fsE q).isSome)
      ∧ (∀ k sn names, content.get? k = some (sn, names) →
          ∃ d c, materializeFrame root sn (fn + k) names = .ok d
            ∧ files.get? k = some (svgPathOf tmp (fn + k), c)
            ∧ (c = true → (fsE (pdf_from_svg (svgPathOf tmp (fn + k)))).isSome)) := by
  intro content
  induction content with
  | nil =>
    intro fn fs files fsE oc h
    simp only [create_slides_svg, Except.ok.injEq, Prod.mk.injEq] at h
    obtain ⟨h1, h2, h3⟩ := h
    subst h1 h2 h3
    refine ⟨rfl, by simp, fun q _ => rfl, fun q hq => hq, ?_⟩
    intro k sn names hk
    simp at hk
  | cons entry rest ih =>
    intro fn fs files fsE oc h
    obtain ⟨sn0, names0⟩ := entry
    simp only [create_slides_svg] at h
    cases hstep : materializeStep root tmp fn sn0 names0 fs with
    | error e => rw [hstep] at h; simp at h
    | ok pcfs =>
      obtain ⟨⟨p0, c0⟩, fs'⟩ := pcfs
      rw [hstep] at h
      simp only [except_bind_ok] at h
      cases hrest : create_slides_svg root tmp rest (fn + 1) fs' with
      | error e => rw [hrest] at h; simp at h
      | ok trip =>
        obtain ⟨rfiles, fsE', oc'⟩ := trip
        rw [hrest] at h
        simp only [except_bind_ok, Except.ok.injEq, Prod.mk.injEq] at h
        obtain ⟨hf, hfs, hoc⟩ := h
        subst hf hfs hoc
        obtain ⟨ihlen, ihoc, ihpres, ihmono, ihentry⟩ := ih (fn + 1) fs' rfiles fsE' oc' hrest
        -- dissect the step
        simp only [materializeStep] at hstep
        cases hmat : materializeFrame root sn0 fn names0 with
        | error e => rw [hmat] at hstep; simp at hstep
        | ok d0 =>
          rw [hmat] at hstep
          simp only [except_bind_ok, Except.ok.injEq, Prod.mk.injEq] at hstep
          obtain ⟨⟨hp0, hc0⟩, hfs'⟩ := hstep
          refine ⟨by simp [ihlen], ?_, ?_, ?_, ?_⟩
          · constructor
            · intro hh f hmem
              obtain ⟨hc, ho⟩ := Bool.and_eq_true_iff.mp hh
              rcases List.mem_cons.mp hmem with rfl | hmem'
              · exact hc
              · exact (ihoc.mp ho) f hmem'
            · intro hh
              have h1 := hh (p0, c0) (List.mem_cons_self _ _)
              have h2 : oc' = true := ihoc.mpr fun f hf => hh f (List.mem_cons_of_mem _ hf)
              simp only at h1
              simp [h1, h2]
          · intro q hq
            simp only [List.map_cons, List.mem_cons] at hq
            push_neg at hq
            obtain ⟨hq1, hq2⟩ := hq
            rw [ihpres q hq2, ← hfs', insertFS_ne _ _ _ _ (hp0 ▸ hq1)]
          · intro q hqsome
            apply ihmono
            rw [← hfs']
            exact insertFS_isSome _ _ _ _ hqsome
          · intro k sn names hk
            cases k with
            | zero =>
              simp only [List.get?_cons_zero, Option.some.injEq, Prod.mk.injEq] at hk
              obtain ⟨hsn, hnames⟩ := hk
              subst hsn hnames
              refine ⟨d0, c0, ?_, ?_, ?_⟩
              · rw [Nat.add_zero]
                exact hmat
              · rw [Nat.add_zero, List.get?_cons_zero, hp0]
              · intro hc
                rw [Nat.add_zero]
                apply ihmono
                rw [← hfs']
                rw [← hc0] at hc
                cases hfsp : fs (svgPathOf tmp fn) with
                | none => rw [hfsp] at hc; simp at hc
                | some oldV =>
                  rw [hfsp] at hc
                  exact (Bool.and_eq_true_iff.mp hc).2
            | succ k' =>
              have hk' : rest.get? k' = some (sn, names) := by simpa using hk
              obtain ⟨d, c, hd, hfile, hpdf⟩ := ihentry k' sn names hk'
              rw [show fn + (k' + 1) = fn + 1 + k' by omega]
              exact ⟨d, c, hd, by simpa using hfile, hpdf⟩

end Inkslides

namespace Inkslides

/-- The svg paths of a pass are exactly `slide-<frameIndex>.svg` in frame
order. -/
theorem csl_paths (root : SDoc) (tmp : String) :
    ∀ (content : List (Nat × List String)) (fn : Nat) (fs : FS)
      (files : List (String × Bool)) (fsE : FS) (oc : Bool),
      create_slides_svg root tmp content fn fs = .ok (files, fsE, oc) →
      files.map Prod.fst
        = (List.range content.length).map (fun k => svgPathOf tmp (fn + k)) := by
  intro content
  induction content with
  | nil =>
    intro fn fs files fsE oc h
    simp only [create_slides_svg, Except.ok.injEq, Prod.mk.injEq] at h
    obtain ⟨h1, -, -⟩ := h
    simp [← h1]
  | cons entry rest ih =>
    intro fn fs files fsE oc h
    obtain ⟨sn0, names0⟩ := entry
    simp only [create_slides_svg] at h
    cases hstep : materializeStep root tmp fn sn0 names0 fs with
    | error e => rw [hstep] at h; simp at h
    | ok pcfs =>
      obtain ⟨⟨p0, c0⟩, fs'⟩ := pcfs
      rw [hstep] at h
      simp only [except_bind_ok] at h
      cases hrest : create_slides_svg root tmp rest (fn + 1) fs' with
      | error e => rw [hrest] at h; simp at h
      | ok trip =>
        obtain ⟨rfiles, fsE', oc'⟩ := trip
        rw [hrest] at h
        simp only [except_bind_ok, Except.ok.injEq, Prod.mk.injEq] at h
        obtain ⟨hf, -, -⟩ := h
        simp only [materializeStep] at hstep
        cases hmat : materializeFrame root sn0 fn names0 with
        | error e => rw [hmat] at hstep; simp at hstep
        | ok d0 =>
          rw [hmat] at hstep
          simp only [except_bind_ok, Except.ok.injEq, Prod.mk.injEq] at hstep
          obtain ⟨⟨hp0, -⟩, -⟩ := hstep
          rw [← hf]
          simp only [List.map_cons, List.length_cons, List.range_succ_eq_map,
            List.map_map]
          congr 1
          · rw [Nat.add_zero]
            exact hp0.symm
          · rw [ih (fn + 1) fs' rfiles fsE' oc' hrest]
            apply List.map_congr_left
            intro k _
            simp only [Function.comp_apply]
            rw [show fn + 1 + k = fn + (k + 1) by omega]

/-- With pairwise-distinct svg paths, the pass leaves each frame's svg file
holding exactly the bytes materialised for it. -/
theorem csl_content_at (root : SDoc) (tmp : String) :
    ∀ (content : List (Nat × List String)) (fn : Nat) (fs : FS)
      (files : List (String × Bool)) (fsE : FS) (oc : Bool),
      create_slides_svg root tmp content fn fs = .ok (files, fsE, oc) →
      (files.map Prod.fst).Nodup →
      ∀ k sn names, content.get? k = some (sn, names) →
        ∃ d, materializeFrame root sn (fn + k) names = .ok d
          ∧ fsE (svgPathOf tmp (fn + k)) = some (.svgFile d) := by
  intro content
  induction content with
  | nil =>
    intro fn fs files fsE oc h hnd k sn names hk
    simp at hk
  | cons entry rest ih =>
    intro fn fs files fsE oc h hnd k sn names hk
    obtain ⟨sn0, names0⟩ := entry
    simp only [create_slides_svg] at h
    cases hstep : materializeStep root tmp fn sn0 names0 fs with
    | error e => rw [hstep] at h; simp at h
    | ok pcfs =>
      obtain ⟨⟨p0, c0⟩, fs'⟩ := pcfs
      rw [hstep] at h
      simp only [except_bind_ok] at h
      cases hrest : create_slides_svg root tmp rest (fn + 1) fs' with
      | error e => rw [hrest] at h; simp at h
      | ok trip =>
        obtain ⟨rfiles, fsE', oc'⟩ := trip
        rw [hrest] at h
        simp only [except_bind_ok, Except.ok.injEq, Prod.mk.injEq] at h
        obtain ⟨hf, hfs, -⟩ := h
        subst hfs
        simp only [materializeStep] at hstep
        cases hmat : materializeFrame root sn0 fn names0 with
        | error e => rw [hmat] at hstep; simp at hstep
        | ok d0 =>
          rw [hmat] at hstep
          simp only [except_bind_ok, Except.ok.injEq, Prod.mk.injEq] at hstep
          obtain ⟨⟨hp0, hc0⟩, hfs'⟩ := hstep
          rw [← hf] at hnd
          simp only [List.map_cons, List.nodup_cons] at hnd
          obtain ⟨hnd1, hnd2⟩ := hnd
          cases k with
          | zero =>
            simp only [List.get?_cons_zero, Option.some.injEq, Prod.mk.injEq] at hk
            obtain ⟨hsn, hnames⟩ := hk
            subst hsn hnames
            refine ⟨d0, by rw [Nat.add_zero]; exact hmat, ?_⟩
            rw [Nat.add_zero]
            have hpres := (csl_main root tmp rest (fn + 1) fs' rfiles fsE' oc' hrest).2.2.1
            rw [hpres (svgPathOf tmp fn) (by rw [hp0]; exact hnd1), ← hfs', hp0]
            exact insertFS_at _ _ _
          | succ k' =>
            have hk' : rest.get? k' = some (sn, names) := by simpa using hk
            obtain ⟨d, hd, hat⟩ := ih (fn + 1) fs' rfiles fsE' oc' hrest hnd2 k' sn names hk'
            rw [show fn + (k' + 1) = fn + 1 + k' by omega]
            exact ⟨d, hd, hat⟩

/-- The second-pass lemma: if every frame's svg file already holds exactly
the bytes the pass will materialize for it and its pdf artifact exists,
the pass re-writes identical bytes everywhere, flags every frame as
cached, and leaves the filesystem untouched. -/
theorem csl_second (root : SDoc) (tmp : String) :
    ∀ (content : List (Nat × List String)) (fn : Nat) (fs2 : FS),
      (∀ k sn names, content.get? k = some (sn, names) →
        ∃ d, materializeFrame root sn (fn + k) names = .ok d
          ∧ fs2 (svgPathOf tmp (fn + k)) = some (.svgFile d)
          ∧ (fs2 (pdf_from_svg (svgPathOf tmp (fn + k)))).isSome) →
      ∃ files2, create_slides_svg root tmp content fn fs2 = .ok (files2, fs2, true)
        ∧ ∀ f ∈ files2, f.2 = true := by
  intro content
  induction content with
  | nil =>
    intro fn fs2 hH
    exact ⟨[], by simp [create_slides_svg], by simp⟩
  | cons entry rest ih =>
    intro fn fs2 hH
    obtain ⟨sn0, names0⟩ := entry
    obtain ⟨d0, hmat, hsvg, hpdf⟩ := hH 0 sn0 names0 (by simp)
    rw [Nat.add_zero] at hmat hsvg hpdf
    have hins : insertFS fs2 (svgPathOf tmp fn) (.svgFile d0) = fs2 :=
      insertFS_self _ _ _ hsvg
    have hstep : materializeStep root tmp fn sn0 names0 fs2
        = .ok ((svgPathOf tmp fn, true), fs2) := by
      simp only [materializeStep, hmat, except_bind_ok, hins, hsvg, fileBeq_refl,
        Bool.true_and, hpdf, Except.ok.injEq, Prod.mk.injEq]
    obtain ⟨files2', hrest, hall⟩ := ih (fn + 1) fs2 (by
      intro k sn names hk
      have := hH (k + 1) sn names (by simpa using hk)
      rw [show fn + (k + 1) = fn + 1 + k by omega] at this
      exact this)
    refine ⟨(svgPathOf tmp fn, true) :: files2', ?_, ?_⟩
    · simp only [create_slides_svg, hstep, except_bind_ok, hrest]
      rfl
    · intro f hmem
      rcases List.mem_cons.mp hmem with rfl | hmem'
      · rfl
      · exact hall f hmem'

end Inkslides

namespace Inkslides

/-! ## Render-schedule lemmas -/

theorem renderStep_pres (svgFiles : List (String × Bool)) (fs : FS) (i : Nat) (q : String)
    (h : ∀ sc ∈ svgFiles, q ≠ pdf_from_svg sc.1) :
    renderStep svgFiles fs i q = fs q := by
  unfold renderStep
  cases hi : svgFiles.get? i with
  | none => rfl
  | some sc =>
    obtain ⟨svg, cached⟩ := sc
    have hmem : (svg, cached) ∈ svgFiles := List.get?_mem hi
    cases cached with
    | true => rfl
    | false =>
      simp only [Bool.false_eq_true, if_neg]
      cases hacc : fs svg with
      | none => rfl
      | some v =>
        cases v with
        | svgFile d => exact insertFS_ne _ _ _ _ (h (svg, false) hmem)
        | pdfFile d => rfl
        | merged parts => rfl

theorem renderStep_isSome (svgFiles : List (String × Bool)) (fs : FS) (i : Nat) (q : String)
    (h : (fs q).isSome) : (renderStep svgFiles fs i q).isSome := by
  unfold renderStep
  cases svgFiles.get? i with
  | none => exact h
  | some sc =>
    obtain ⟨svg, cached⟩ := sc
    cases cached with
    | true => exact h
    | false =>
      simp only [Bool.false_eq_true, if_neg]
      cases fs svg with
      | none => exact h
      | some v =>
        cases v with
        | svgFile d => exact insertFS_isSome _ _ _ _ h
        | pdfFile d => exact h
        | merged parts => exact h

theorem renderSchedule_pres (svgFiles : List (String × Bool)) :
    ∀ (ord : List Nat) (fs : FS) (q : String),
      (∀ sc ∈ svgFiles, q ≠ pdf_from_svg sc.1) →
      renderSchedule svgFiles ord fs q = fs q := by
  intro ord
  induction ord with
  | nil => intro fs q _; rfl
  | cons o rest ih =>
    intro fs q h
    show renderSchedule svgFiles rest (renderStep svgFiles fs o) q = fs q
    rw [ih _ q h, renderStep_pres _ _ _ _ h]

theorem renderSchedule_isSome (svgFiles : List (String × Bool)) :
    ∀ (ord : List Nat) (fs : FS) (q : String),
      (fs q).isSome → (renderSchedule svgFiles ord fs q).isSome := by
  intro ord
  induction ord with
  | nil => intro fs q h; exact h
  | cons o rest ih =>
    intro fs q h
    exact ih _ q (renderStep_isSome _ _ _ _ h)

theorem renderSchedule_covers (svgFiles : List (String × Bool)) :
    ∀ (ord : List Nat) (fs : FS) (i : Nat) (p : String) (d : SDoc),
      i ∈ ord →
      svgFiles.get? i = some (p, false) →
      fs p = some (.svgFile d) →
      (∀ sc ∈ svgFiles, p ≠ pdf_from_svg sc.1) →
      (renderSchedule svgFiles ord fs (pdf_from_svg p)).isSome := by
  intro ord
  induction ord with
  | nil => intro fs i p d hmem; simp at hmem
  | cons o rest ih =>
    intro fs i p d hmem hi hp hnp
    show (renderSchedule svgFiles rest (renderStep svgFiles fs o) (pdf_from_svg p)).isSome
    rcases List.mem_cons.mp hmem with rfl | hmem'
    · have hstep : (renderStep svgFiles fs i (pdf_from_svg p)).isSome := by
        unfold renderStep
        rw [hi]
        simp only [Bool.false_eq_true, if_neg]
        rw [hp]
        simp [insertFS_at]
      exact renderSchedule_isSome _ rest _ _ hstep
    · have hkeep : renderStep svgFiles fs o p = some (.svgFile d) := by
        rw [renderStep_pres _ _ _ _ hnp, hp]
      exact ih _ i p d hmem' hi hkeep hnp

end Inkslides

namespace Inkslides

/-- Dissection of a successful `runInkslides` into its pipeline stages. -/
theorem run_dissect (env : ToolEnv) (nw : Nat) (doc : SDoc) (base tmp : String)
    (fs0 : FS) (ord : List Nat) (r : RunResult)
    (h : runInkslides env nw doc base tmp fs0 ord = .ok r) :
    ∃ content files fs1 oc,
      get_layer_structure doc = .ok content
      ∧ create_slides_svg (hide_all_layers doc) tmp content 0 fs0 = .ok (files, fs1, oc)
      ∧ ((oc = true ∧ r = ⟨true, files, fs1, 0, none⟩)
         ∨ (oc = false
            ∧ (∃ mk, mergerWrapperInit env = .ok mk)
            ∧ r = ⟨false, files,
                insertFS (renderSchedule files ord fs1) (base ++ ".pdf")
                  (.merged (files.map fun sc => pdf_from_svg sc.1)),
                nw, some (files.map fun sc => pdf_from_svg sc.1, base ++ ".pdf")⟩)) := by
  unfold runInkslides at h
  cases hplan : get_layer_structure doc with
  | error e => rw [hplan] at h; simp at h
  | ok content =>
    rw [hplan] at h
    simp only [except_mapError_ok, except_bind_ok] at h
    cases hcsl : create_slides_svg (hide_all_layers doc) tmp content 0 fs0 with
    | error e => rw [hcsl] at h; simp at h
    | ok trip =>
      obtain ⟨files, fs1, oc⟩ := trip
      rw [hcsl] at h
      simp only [except_mapError_ok, except_bind_ok] at h
      refine ⟨content, files, fs1, oc, rfl, hcsl, ?_⟩
      cases oc with
      | true =>
        left
        simp only [if_pos rfl] at h
        exact ⟨rfl, (Except.ok.inj h).symm⟩
      | false =>
        right
        simp only [Bool.false_eq_true, if_neg] at h
        cases hinit : mergerWrapperInit env with
        | error e => rw [hinit] at h; simp at h
        | ok mk =>
          rw [hinit] at h
          simp only [except_mapError_ok, except_bind_ok] at h
          exact ⟨rfl, ⟨mk, rfl⟩, (Except.ok.inj h).symm⟩

/-! ## C8 — merge input order -/

/-- C8: the artifact-path list handed to the merge stage is exactly the
frames' target pdf paths in frameIndex order (`pdf_from_svg` of
`slide-<frameIndex>.svg`), covering cache hits and misses alike, and it is
independent of the completion order of the workers (the `order`
parameter). -/
theorem merge_call_order (env env' : ToolEnv) (nw nw' : Nat) (doc : SDoc)
    (base tmp : String) (fs0 : FS) (ord ord' : List Nat) (r r' : RunResult)
    (h : runInkslides env nw doc base tmp fs0 ord = .ok r)
    (h' : runInkslides env' nw' doc base tmp fs0 ord' = .ok r') :
    r.mergeCall = r'.mergeCall
    ∧ (r.onlyCached = false →
        r.mergeCall = some (r.svgFiles.map (fun sc => pdf_from_svg sc.1), base ++ ".pdf"))
    ∧ r.svgFiles.map Prod.fst = (List.range r.svgFiles.length).map (svgPathOf tmp) := by
  obtain ⟨content, files, fs1, oc, hplan, hcsl, hbr⟩ :=
    run_dissect env nw doc base tmp fs0 ord r h
  obtain ⟨content', files', fs1', oc', hplan', hcsl', hbr'⟩ :=
    run_dissect env' nw' doc base tmp fs0 ord' r' h'
  have hc : content = content' := by
    rw [hplan] at hplan'
    exact Except.ok.inj hplan'
  subst hc
  have hfe : files = files' ∧ fs1 = fs1' ∧ oc = oc' := by
    rw [hcsl] at hcsl'
    have := Except.ok.inj hcsl'
    exact ⟨congrArg (fun t => t.1) this,
      congrArg (fun t => t.2.1) this,
      congrArg (fun t => t.2.2) this⟩
  obtain ⟨hf, hfs, ho⟩ := hfe
  subst hf hfs ho
  have hpaths := csl_paths (hide_all_layers doc) tmp content 0 fs0 files fs1 oc hcsl
  have hlen := (csl_main (hide_all_layers doc) tmp content 0 fs0 files fs1 oc hcsl).1
  have hpaths' : files.map Prod.fst = (List.range files.length).map (svgPathOf tmp) := by
    rw [hpaths, hlen]
    apply List.map_congr_left
    intro k _
    rw [Nat.zero_add]
  rcases hbr with ⟨hoc, hr⟩ | ⟨hoc, -, hr⟩ <;> rcases hbr' with ⟨hoc', hr'⟩ | ⟨hoc', -, hr'⟩
  · subst hr hr'
    exact ⟨rfl, by intro hcon; simp at hcon, hpaths'⟩
  · rw [hoc] at hoc'; simp at hoc'
  · rw [hoc'] at hoc; simp at hoc
  · subst hr hr'
    exact ⟨rfl, fun _ => rfl, hpaths'⟩

/-! ## C10 — all-cached early return -/

/-- C10: when every frame is a cache hit, `run` returns right after
materialization: no worker is spawned, the merge stage never runs, and the
final output at `<input-basename>.pdf` is not written or rewritten — its
filesystem entry is exactly what it was before the run, existing or not
(the output path never collides with the `slide-<n>.svg` intermediates the
pass writes). -/
theorem run_all_cached_early_return (env : ToolEnv) (nw : Nat) (doc : SDoc)
    (base tmp : String) (fs0 : FS) (ord : List Nat) (r : RunResult)
    (h : runInkslides env nw doc base tmp fs0 ord = .ok r)
    (hc : r.onlyCached = true)
    (hout : (base ++ ".pdf") ∉ r.svgFiles.map Prod.fst) :
    r.workersSpawned = 0
    ∧ r.mergeCall = none
    ∧ r.fs (base ++ ".pdf") = fs0 (base ++ ".pdf") := by
  obtain ⟨content, files, fs1, oc, hplan, hcsl, hbr⟩ :=
    run_dissect env nw doc base tmp fs0 ord r h
  rcases hbr with ⟨hoc, hr⟩ | ⟨hoc, -, hr⟩
  · subst hr
    refine ⟨rfl, rfl, ?_⟩
    exact (csl_main (hide_all_layers doc) tmp content 0 fs0 files fs1 oc hcsl).2.2.1
      _ hout
  · subst hr
    simp at hc

end Inkslides

namespace Inkslides

/-! ## C3 — the cache-hit condition and the second run -/

theorem cache_hit_iff_aux (root : SDoc) (tmp : String) (fn sn : Nat)
    (slide : List String) (fs : FS) (p : String) (c : Bool) (fs2 : FS) (d : SDoc)
    (hstep : materializeStep root tmp fn sn slide fs = .ok ((p, c), fs2))
    (hmat : materializeFrame root sn fn slide = .ok d) :
    c = true ↔ (fs p).isSome ∧ fs p = some (.svgFile d) ∧ (fs2 (pdf_from_svg p)).isSome := by
  simp only [materializeStep, hmat, except_bind_ok, Except.ok.injEq, Prod.mk.injEq] at hstep
  obtain ⟨⟨hp, hc⟩, hfs2⟩ := hstep
  subst hfs2
  subst hp
  cases hfsp : fs (svgPathOf tmp fn) with
  | none =>
    rw [hfsp] at hc
    simp [← hc, hfsp]
  | some oldV =>
    rw [hfsp] at hc
    rw [← hc]
    simp only [Option.isSome_some, true_and, Option.some.injEq, Bool.and_eq_true]
    constructor
    · intro ⟨h1, h2⟩
      exact ⟨(fileBeq_iff _ _).mp h1, h2⟩
    · intro ⟨h1, h2⟩
      exact ⟨(fileBeq_iff _ _).mpr h1, h2⟩

theorem run_twice_all_cached (env env' : ToolEnv) (nw nw' : Nat) (doc : SDoc)
    (base tmp : String) (fs0 : FS) (ord ord' : List Nat) (r1 r2 : RunResult)
    (h1 : runInkslides env nw doc base tmp fs0 ord = .ok r1)
    (h2 : runInkslides env' nw' doc base tmp r1.fs ord' = .ok r2)
    (hnd : (r1.svgFiles.map Prod.fst).Nodup)
    (hdisj : ∀ q ∈ r1.svgFiles.map Prod.fst, pdf_from_svg q ∉ r1.svgFiles.map Prod.fst)
    (hout : (base ++ ".pdf") ∉ r1.svgFiles.map Prod.fst)
    (hcov : ∀ i, i < r1.svgFiles.length → i ∈ ord) :
    r2.onlyCached = true ∧ ∀ f ∈ r2.svgFiles, f.2 = true := by
  obtain ⟨content, files, fs1, oc, hplan, hcsl, hbr⟩ :=
    run_dissect env nw doc base tmp fs0 ord r1 h1
  have hfiles : r1.svgFiles = files := by
    rcases hbr with ⟨-, hr⟩ | ⟨-, -, hr⟩ <;> subst hr <;> rfl
  rw [hfiles] at hnd hdisj hout hcov
  obtain ⟨-, hociff, -, -, hentry⟩ :=
    csl_main (hide_all_layers doc) tmp content 0 fs0 files fs1 oc hcsl
  have hat := csl_content_at (hide_all_layers doc) tmp content 0 fs0 files fs1 oc hcsl hnd
  -- svg paths of entries are among the pass's written paths, and never
  -- collide with any pdf path
  have hsvg_mem : ∀ k sn names, content.get? k = some (sn, names) →
      svgPathOf tmp (0 + k) ∈ files.map Prod.fst := by
    intro k sn names hk
    obtain ⟨d, c, -, hfile, -⟩ := hentry k sn names hk
    exact List.mem_map_of_mem Prod.fst (List.get?_mem hfile)
  have hnotpdf : ∀ k sn names, content.get? k = some (sn, names) →
      ∀ sc ∈ files, svgPathOf tmp (0 + k) ≠ pdf_from_svg sc.1 := by
    intro k sn names hk sc hsc heq
    have h1m : sc.1 ∈ files.map Prod.fst := List.mem_map_of_mem Prod.fst hsc
    have := hdisj sc.1 h1m
    rw [← heq] at this
    exact this (hsvg_mem k sn names hk)
  -- main invariant: after the complete first run, each frame's svg file
  -- holds the frame's materialized bytes and its pdf artifact exists
  have hH : ∀ k sn names, content.get? k = some (sn, names) →
      ∃ d, materializeFrame (hide_all_layers doc) sn (0 + k) names = .ok d
        ∧ r1.fs (svgPathOf tmp (0 + k)) = some (.svgFile d)
        ∧ (r1.fs (pdf_from_svg (svgPathOf tmp (0 + k)))).isSome := by
    intro k sn names hk
    obtain ⟨d, hd, hfs1⟩ := hat k sn names hk
    obtain ⟨d', c, hd', hfile, hpdf1⟩ := hentry k sn names hk
    have hdd : d = d' := by
      rw [hd] at hd'
      exact Except.ok.inj hd'
    subst hdd
    rcases hbr with ⟨hoc, hr⟩ | ⟨hoc, -, hr⟩
    · -- everything was already cached: r1.fs = fs1, and every flag is true
      subst hr
      refine ⟨d, hd, hfs1, ?_⟩
      have hcall : c = true := (hociff.mp hoc) _ (List.get?_mem hfile)
      exact hpdf1 hcall
    · -- some frames were rendered: r1.fs adds the pdfs and the merged output
      subst hr
      have hfs_pres : (insertFS (renderSchedule files ord fs1) (base ++ ".pdf")
            (.merged (files.map fun sc => pdf_from_svg sc.1)))
            (svgPathOf tmp (0 + k)) = fs1 (svgPathOf tmp (0 + k)) := by
        have hne : svgPathOf tmp (0 + k) ≠ base ++ ".pdf" :=
          fun hcon => hout (by rw [← hcon]; exact hsvg_mem k sn names hk)
        rw [insertFS_ne _ _ _ _ hne]
        exact renderSchedule_pres files ord fs1 _ (hnotpdf k sn names hk)
      refine ⟨d, hd, hfs_pres.trans hfs1, ?_⟩
      apply insertFS_isSome
      cases hc : c with
      | true =>
        exact renderSchedule_isSome files ord fs1 _ (hpdf1 hc)
      | false =>
        have hklen : k < files.length := (List.get?_eq_some.mp hfile).1
        exact renderSchedule_covers files ord fs1 k (svgPathOf tmp (0 + k)) d
          (hcov k hklen) (hc ▸ hfile) hfs1 (hnotpdf k sn names hk)
  -- second run: every frame re-materializes identical bytes, so every
  -- frame is a cache hit
  obtain ⟨files2, hcsl2, hall2⟩ := csl_second (hide_all_layers doc) tmp content 0 r1.fs hH
  obtain ⟨content2, files2', fs1'', oc'', hplan2, hcsl2', hbr2⟩ :=
    run_dissect env' nw' doc base tmp r1.fs ord' r2 h2
  have hc2 : content2 = content := by
    rw [hplan] at hplan2
    exact Except.ok.inj hplan2 |>.symm
  subst hc2
  rw [hcsl2] at hcsl2'
  have hinj := Except.ok.inj hcsl2'
  have hoceq : oc'' = true := (congrArg (fun t => t.2.2) hinj).symm
  have hfeq : files2' = files2 := (congrArg (fun t => t.1) hinj).symm
  rcases hbr2 with ⟨-, hr2⟩ | ⟨hoc2, -, -⟩
  · subst hr2
    refine ⟨rfl, ?_⟩
    intro f hf
    exact hall2 f (hfeq ▸ hf)
  · rw [hoceq] at hoc2
    simp at hoc2

end Inkslides

namespace Inkslides

instance : DecidableEq FileData := fun a b =>
  decidable_of_iff (fileBeq a b = true) (fileBeq_iff a b)

/-- C3: (i) a frame is a cache hit iff the materialized source file already
existed at its svg path before this run's write, the digest of the bytes
found there equals the digest of the bytes just written, and the target pdf
artifact exists after the write; (ii) consequently, running the pipeline
twice on the same document and plan (same temp folder, worker completion
order arbitrary and covering every frame) makes every frame of the second
run a cache hit. -/
theorem cache_hit_iff_and_second_run :
    (∀ (root : SDoc) (tmp : String) (fn sn : Nat) (slide : List String)
       (fs : FS) (p : String) (c : Bool) (fs2 : FS) (d : SDoc),
       materializeStep root tmp fn sn slide fs = .ok ((p, c), fs2) →
       materializeFrame root sn fn slide = .ok d →
       (c = true ↔
         (fs p).isSome ∧ fs p = some (.svgFile d) ∧ (fs2 (pdf_from_svg p)).isSome))
    ∧ (∀ (env env' : ToolEnv) (nw nw' : Nat) (doc : SDoc) (base tmp : String)
        (fs0 : FS) (ord ord' : List Nat) (r1 r2 : RunResult),
        runInkslides env nw doc base tmp fs0 ord = .ok r1 →
        runInkslides env' nw' doc base tmp r1.fs ord' = .ok r2 →
        (r1.svgFiles.map Prod.fst).Nodup →
        (∀ q ∈ r1.svgFiles.map Prod.fst, pdf_from_svg q ∉ r1.svgFiles.map Prod.fst) →
        (base ++ ".pdf") ∉ r1.svgFiles.map Prod.fst →
        (∀ i, i < r1.svgFiles.length → i ∈ ord) →
        r2.onlyCached = true ∧ ∀ f ∈ r2.svgFiles, f.2 = true) :=
  ⟨cache_hit_iff_aux, run_twice_all_cached⟩

def c3env : ToolEnv := ⟨true, false, false⟩

def c3doc : SDoc := ⟨[.mk "G" [] [] false [.mk "A" [] [] false []]], true⟩

@[simp] theorem except_bindF_ok {ε α β : Type} (a : α) (f : α → Except ε β) :
    Except.bind (Except.ok a) f = f a := rfl

instance exceptDecEq {ε α : Type} [DecidableEq ε] [DecidableEq α] :
    DecidableEq (Except ε α)
  | .ok a, .ok b => decidable_of_iff (a = b) (by simp)
  | .error e, .error f => decidable_of_iff (e = f) (by simp)
  | .ok _, .error _ => isFalse (by simp)
  | .error _, .ok _ => isFalse (by simp)

/-- A chained second run succeeds when the composed two-run expression
computes to a success. -/
theorem second_run_ok (e1 : Except RunError RunResult)
    (g : RunResult → Except RunError RunResult) (r1 : RunResult) (h1 : e1 = .ok r1)
    (hval : (e1.bind fun r => (g r).map fun _ => true) = .ok true) :
    ∃ r2, g r1 = .ok r2 := by
  rw [h1] at hval
  simp only [except_bindF_ok] at hval
  cases hg : g r1 with
  | error e => rw [hg] at hval; simp at hval
  | ok r2 => exact ⟨r2, rfl⟩

/-- Transport a computed fact about the result of a successful run. -/
theorem run_map_fact {β : Type} (e : Except RunError RunResult) (r : RunResult)
    (f : RunResult → β) (b : β) (hr : e = .ok r) (hval : e.map f = .ok b) : f r = b := by
  rw [hr] at hval
  simp only [except_map_ok, Except.ok.injEq] at hval
  exact hval

/-- Transport a computed fact about the result of a second run chained on
the first run's filesystem. -/
theorem two_run_fact {β : Type} (e1 : Except RunError RunResult)
    (g : RunResult → Except RunError RunResult) (r1 r2 : RunResult)
    (f : RunResult → β) (b : β)
    (h1 : e1 = .ok r1) (h2 : g r1 = .ok r2)
    (hval : (e1.bind fun r => (g r).map f) = .ok b) : f r2 = b := by
  rw [h1] at hval
  simp only [except_bindF_ok] at hval
  rw [h2] at hval
  simp only [except_map_ok, Except.ok.injEq] at hval
  exact hval

/-- C3 witness: on a one-layer document, the first materialization over an
empty filesystem is a miss (part (i): no prior file), and after a complete
first run the second run's only frame is a cache hit (part (ii)). -/
theorem cache_hit_iff_and_second_run_witness :
    (∃ pc fs2, materializeStep (hide_all_layers c3doc) "t" 0 1 ["A"] (fun _ => none)
        = .ok (pc, fs2) ∧ pc.2 = false)
    ∧ ((runInkslides c3env 1 c3doc "pres" "t" (fun _ => none) [0]).bind fun r1 =>
        (runInkslides c3env 1 c3doc "pres" "t" r1.fs [0]).map fun r2 =>
          (r2.onlyCached, r2.svgFiles.map Prod.snd)) = .ok (true, [true]) := by
  constructor
  · obtain ⟨pc, fs2, hstep⟩ : ∃ pc fs2,
        materializeStep (hide_all_layers c3doc) "t" 0 1 ["A"] (fun _ => none)
          = .ok (pc, fs2) := ⟨_, _, rfl⟩
    obtain ⟨d, hmat⟩ : ∃ d,
        materializeFrame (hide_all_layers c3doc) 1 0 ["A"] = .ok d := ⟨_, rfl⟩
    obtain ⟨p, c⟩ := pc
    have hiff := cache_hit_iff_and_second_run.1 (hide_all_layers c3doc) "t" 0 1 ["A"]
      (fun _ => none) p c fs2 d hstep hmat
    refine ⟨(p, c), fs2, hstep, ?_⟩
    cases hc : c with
    | false => rfl
    | true =>
      exfalso
      obtain ⟨hsome, -, -⟩ := hiff.mp hc
      simp at hsome
  · obtain ⟨r1, hr1⟩ : ∃ r1,
        runInkslides c3env 1 c3doc "pres" "t" (fun _ => none) [0] = .ok r1 := ⟨_, rfl⟩
    obtain ⟨r2, hr2⟩ : ∃ r2,
        runInkslides c3env 1 c3doc "pres" "t" r1.fs [0] = .ok r2 :=
      second_run_ok _ (fun r => runInkslides c3env 1 c3doc "pres" "t" r.fs [0])
        r1 hr1 (by decide)
    have hnd : (r1.svgFiles.map Prod.fst).Nodup :=
      of_decide_eq_true (run_map_fact _ r1
        (fun r => decide (r.svgFiles.map Prod.fst).Nodup) true hr1 (by decide))
    have hdisj : ∀ q ∈ r1.svgFiles.map Prod.fst,
        pdf_from_svg q ∉ r1.svgFiles.map Prod.fst :=
      of_decide_eq_true (run_map_fact _ r1
        (fun r => decide (∀ q ∈ r.svgFiles.map Prod.fst,
          pdf_from_svg q ∉ r.svgFiles.map Prod.fst)) true hr1 (by decide))
    have hout : ("pres" ++ ".pdf") ∉ r1.svgFiles.map Prod.fst :=
      of_decide_eq_true (run_map_fact _ r1
        (fun r => decide (("pres" ++ ".pdf") ∉ r.svgFiles.map Prod.fst)) true hr1 (by decide))
    have hlen : r1.svgFiles.length = 1 :=
      run_map_fact _ r1 (fun r => r.svgFiles.length) 1 hr1 (by decide)
    have h := cache_hit_iff_and_second_run.2 c3env c3env 1 1 c3doc "pres" "t"
      (fun _ => none) [0] [0] r1 r2 hr1 hr2 hnd hdisj hout
      (by
        intro i hi
        rw [hlen] at hi
        have h0 : i = 0 := by omega
        subst h0
        exact List.mem_singleton.mpr rfl)
    have hlen2 : r2.svgFiles.length = 1 :=
      two_run_fact _ (fun r => runInkslides c3env 1 c3doc "pres" "t" r.fs [0])
        r1 r2 (fun r => r.svgFiles.length) 1 hr1 hr2 (by decide)
    have hall : r2.svgFiles.map Prod.snd = [true] := by
      cases hsv : r2.svgFiles with
      | nil => rw [hsv] at hlen2; simp at hlen2
      | cons f rest =>
        rw [hsv] at hlen2
        simp only [List.length_cons, Nat.succ.injEq] at hlen2
        have hrest : rest = [] := List.length_eq_zero.mp hlen2
        subst hrest
        have hf := h.2 f (by rw [hsv]; exact List.mem_singleton.mpr rfl)
        simp [hf]
    rw [hr1]
    simp only [except_bindF_ok]
    rw [hr2]
    simp only [except_map_ok, Except.ok.injEq]
    rw [h.1, hall]

def c8doc : SDoc := ⟨[.mk "G8" [] [] false [.mk "B" [] [] false []]], true⟩

/-- C8 witness: two runs over the same input with different worker
completion orders produce the same merge-stage call, whose path list is the
frames' pdf targets in frameIndex order. -/
theorem merge_call_order_witness :
    ((runInkslides c3env 1 c8doc "p8" "t8" (fun _ => none) [0]).bind fun r =>
      (runInkslides c3env 2 c8doc "p8" "t8" (fun _ => none) [5, 0]).map fun r2 =>
        decide (r.mergeCall = r2.mergeCall
          ∧ r.mergeCall = some (r.svgFiles.map (fun sc => pdf_from_svg sc.1), "p8" ++ ".pdf")
          ∧ r.svgFiles.map Prod.fst = (List.range r.svgFiles.length).map (svgPathOf "t8")))
      = .ok true := by
  obtain ⟨r, hr⟩ : ∃ r,
      runInkslides c3env 1 c8doc "p8" "t8" (fun _ => none) [0] = .ok r := ⟨_, rfl⟩
  obtain ⟨r2, hr2⟩ : ∃ r2,
      runInkslides c3env 2 c8doc "p8" "t8" (fun _ => none) [5, 0] = .ok r2 := ⟨_, rfl⟩
  have h := merge_call_order c3env c3env 1 2 c8doc "p8" "t8" (fun _ => none)
    [0] [5, 0] r r2 hr hr2
  have hoc : r.onlyCached = false :=
    run_map_fact _ r (fun r => r.onlyCached) false hr (by decide)
  rw [hr]
  simp only [except_bindF_ok]
  rw [hr2]
  simp only [except_map_ok, Except.ok.injEq, decide_eq_true_eq]
  exact ⟨h.1, h.2.1 hoc, h.2.2⟩

def c10doc : SDoc := ⟨[.mk "G10" [] [] false [.mk "C" [] [] false []]], true⟩

/-- C10 witness: after one complete run, a second run is fully cached and
returns early — zero workers, no merge call, and the output file entry
untouched. -/
theorem run_all_cached_early_return_witness :
    ((runInkslides c3env 1 c10doc "pX" "tX" (fun _ => none) [0]).bind fun r1 =>
      (runInkslides c3env 1 c10doc "pX" "tX" r1.fs [0]).map fun r2 =>
        decide (r2.workersSpawned = 0 ∧ r2.mergeCall = none
          ∧ r2.fs ("pX" ++ ".pdf") = r1.fs ("pX" ++ ".pdf")))
      = .ok true := by
  obtain ⟨r1, hr1⟩ : ∃ r1,
      runInkslides c3env 1 c10doc "pX" "tX" (fun _ => none) [0] = .ok r1 := ⟨_, rfl⟩
  obtain ⟨r2, hr2⟩ : ∃ r2,
      runInkslides c3env 1 c10doc "pX" "tX" r1.fs [0] = .ok r2 :=
    second_run_ok _ (fun r => runInkslides c3env 1 c10doc "pX" "tX" r.fs [0])
      r1 hr1 (by decide)
  have hc : r2.onlyCached = true :=
    two_run_fact _ (fun r => runInkslides c3env 1 c10doc "pX" "tX" r.fs [0])
      r1 r2 (fun r => r.onlyCached) true hr1 hr2 (by decide)
  have hout : ("pX" ++ ".pdf") ∉ r2.svgFiles.map Prod.fst :=
    of_decide_eq_true (two_run_fact _
      (fun r => runInkslides c3env 1 c10doc "pX" "tX" r.fs [0]) r1 r2
      (fun r => decide (("pX" ++ ".pdf") ∉ r.svgFiles.map Prod.fst)) true hr1 hr2 (by decide))
  have h := run_all_cached_early_return c3env 1 c10doc "pX" "tX" r1.fs [0] r2 hr2 hc hout
  rw [hr1]
  simp only [except_bindF_ok]
  rw [hr2]
  simp only [except_map_ok, Except.ok.injEq, decide_eq_true_eq]
  exact h

end Inkslides
